import Mathlib

/-!
Verification development for the FFI-Export-Parser transformation core.

The repository converts FFI admin-export XML documents into relational
tables.  The authoritative module is `ffi_reader/base.py` (the package used
by the `xml_to_rdb.py` driver); `base.py` at the repository root is an
earlier revision of the same module and is modelled separately where the two
diverge.  Python `DataFrame` cells are modelled as `Option String`
(`none` is pandas `NaN`); a possibly-absent column holds an
`Option (Option String)` (`none` means the column itself is absent).
-/

namespace FFI

/-! ## Python-modelling primitives -/

/-- Python `str(cell)` for a cell value: `str(nan)` prints as `"nan"`. -/
def pyStr : Option String → String
  | none => "nan"
  | some s => s

/-- Python `s.lower()` (ASCII scope, matching the data handled by the parser). -/
def pyLower (s : String) : String := String.mk (s.toList.map Char.toLower)

/-- Python `s.upper()` (ASCII scope). -/
def pyUpper (s : String) : String := String.mk (s.toList.map Char.toUpper)

/-- Whether `pat` occurs as a contiguous sublist of the second list. -/
def listInfixB [BEq α] (pat : List α) : List α → Bool
  | [] => pat.isEmpty
  | b :: bs => List.isPrefixOf pat (b :: bs) || listInfixB pat bs

/-- Python substring test `pat in s`. -/
def pyIn (pat s : String) : Bool := listInfixB pat.toList s.toList

/-- Python truthiness of a string: the empty string is falsy. -/
def pyTruthy (s : String) : Bool := !(s == "")

/-- Python slicing `s[:n]`. -/
def pyTake (n : Nat) (s : String) : String := String.mk (s.toList.take n)

/-- Python `int(s)` on a digit string. -/
def pyNat (s : String) : Nat := s.toList.foldl (fun n c => n * 10 + (c.toNat - 48)) 0

/-- A regex word character, `\w` (ASCII scope): letters, digits, underscore. -/
def wordChar (c : Char) : Bool := c.isAlphanum || c == '_'

/-- Maximal runs of characters satisfying `p`, fuelled by the list length
(each step consumes at least one character, so length fuel suffices). -/
def runsF (p : Char → Bool) : Nat → List Char → List (List Char)
  | _, [] => []
  | 0, _ => []
  | fuel+1, c :: rest =>
    if p c then (c :: rest.takeWhile p) :: runsF p fuel (rest.dropWhile p)
    else runsF p fuel rest

/-- Python `re.findall` of a one-character-class-plus pattern: the maximal
runs of characters satisfying `p`, in order. -/
def findallRuns (p : Char → Bool) (s : String) : List String :=
  (runsF p s.toList.length s.toList).map String.mk

/-- `re.findall(r'(\d+)', s)`: maximal digit runs of `s`. -/
def findallDigits (s : String) : List String := findallRuns Char.isDigit s

/-- `re.findall(r'\w+', s)`: maximal word-character runs of `s`. -/
def findallWords (s : String) : List String := findallRuns wordChar s

/-- Effectful map over a list in the `Except` monad, failing at the first
error, as a Python `for` loop raising out of its body does. -/
def eMapM (f : α → Except ε β) : List α → Except ε (List β)
  | [] => Except.ok []
  | a :: l =>
    match f a with
    | Except.error e => Except.error e
    | Except.ok b =>
      match eMapM f l with
      | Except.error e => Except.error e
      | Except.ok bs => Except.ok (b :: bs)

/-- Keep-first deduplication, as pandas `drop_duplicates(keep='first')` and
`Series.unique` order their output. -/
def dedupKF [DecidableEq α] (seen : List α) : List α → List α
  | [] => []
  | a :: l => if a ∈ seen then dedupKF seen l else a :: dedupKF (a :: seen) l

/-! ## Column-name cleaning: `parse_camelcase` and `normalize_string`
(`base.py` lines 32-72; identical in `ffi_reader/base.py`). -/

/-- One truth-value of the word-boundary test of `parse_camelcase`: the
previous and next characters are `Option Char` because Python uses `''`
(whose `isupper`/`islower` are false) at the ends of the string. -/
def camelBoundary (prev : Option Char) (c : Char) (next : Option Char) : Bool :=
  ((prev.elim false Char.isUpper) && c.isUpper && (next.elim false Char.isLower)) ||
  ((prev.elim false Char.isLower) && c.isUpper)

/-- The segment loop of `parse_camelcase`: walks the characters carrying the
previous character and the word built so far, starting a new word at each
case-transition boundary.  The final word is always appended, matching the
trailing `segments.append(cur_word)`. -/
def camelSegs (prev : Option Char) (cur : List Char) : List Char → List (List Char)
  | [] => [cur]
  | c :: rest =>
    if camelBoundary prev c rest.head? then
      cur :: camelSegs (some c) [c] rest
    else
      camelSegs (some c) (cur ++ [c]) rest

/-- Python `'_'.join(words)` on character lists. -/
def joinUnderscore : List (List Char) → List Char
  | [] => []
  | [w] => w
  | w :: ws => w ++ '_' :: joinUnderscore ws

/-- `parse_camelcase(txt)`: split on case-transition boundaries and join the
lowercased segments with underscores. -/
def parse_camelcase (txt : String) : String :=
  String.mk (joinUnderscore ((camelSegs none [] txt.toList).map (fun w => w.map Char.toLower)))

/-- The character filter performed by
`string.replace(' ', '').replace('.', '').replace('-', '')`
(replacing a one-character pattern by the empty string removes every
occurrence of that character). -/
def removeSpDotDash (l : List Char) : List Char :=
  l.filter (fun c => !(c == ' ') && !(c == '.') && !(c == '-'))

/-- Whether a character list starts with `')'`. -/
def headIsClose : List Char → Bool
  | ')' :: _ => true
  | _ => false

/-- Whether the word-character run following a `'('` closes a `\(\w+\)`
match: the run is nonempty and the character after it is `')'`. -/
def parenMatchAt (rest : List Char) : Bool :=
  headIsClose (rest.dropWhile wordChar) && !(rest.takeWhile wordChar).isEmpty

/-- `re.sub(r'\(\w+\)', '', s)` modelled on the character list, fuelled by
the list length (each step consumes at least one character).  At a `'('` the
regex engine greedily takes the following word-character run; the match
succeeds exactly when that run is nonempty and is followed by `')'`, and the
scan resumes after the `')'`; on failure the scan advances one character,
exactly as `re.sub` does. -/
def subParenF : Nat → List Char → List Char
  | _, [] => []
  | 0, l => l
  | fuel+1, c :: rest =>
    if c == '(' then
      if parenMatchAt rest then subParenF fuel (rest.dropWhile wordChar).tail
      else c :: subParenF fuel rest
    else c :: subParenF fuel rest

/-- `re.sub(r'\(\w+\)', '', s)` on a character list. -/
def subParen (l : List Char) : List Char := subParenF l.length l

/-- `normalize_string(string)`: strip spaces, periods and hyphens, delete
parenthesized word groups, then convert to snake case. -/
def normalize_string (s : String) : String :=
  parse_camelcase (String.mk (subParen (removeSpDotDash s.toList)))

/-- Whether the character list contains a `\(\w+\)` match, mirroring the scan
of `subParenF`. -/
def hasParenGroupF : Nat → List Char → Bool
  | _, [] => false
  | 0, _ => false
  | fuel+1, c :: rest =>
    if c == '(' then
      if parenMatchAt rest then true
      else hasParenGroupF fuel rest
    else hasParenGroupF fuel rest

/-- Whether a string contains a `\(\w+\)` match. -/
def hasParenGroup (s : String) : Bool := hasParenGroupF s.toList.length s.toList

/-- A character of a name already in the output naming convention:
lower-case letter, digit, or underscore. -/
def cleanChar (c : Char) : Bool := c.isLower || c.isDigit || c == '_'

/-! ## Day-granularity date ordinal: `to_datenum`
(`ffi_reader/base.py` lines 78-95; identical in `base.py` lines 75-92). -/

/-- Gregorian leap-year test, as `datetime.date` uses. -/
def isLeap (y : Nat) : Bool := y % 4 == 0 && (y % 100 != 0 || y % 400 == 0)

/-- Days in the whole years before year `y` of the proleptic Gregorian
calendar (`datetime.date.toordinal` counts from 0001-01-01 as day 1). -/
def daysBeforeYear (y : Nat) : Nat :=
  365 * (y - 1) + (y - 1) / 4 - (y - 1) / 100 + (y - 1) / 400

/-- Month lengths of year `y`. -/
def monthDays (y : Nat) : List Nat :=
  [31, if isLeap y then 29 else 28, 31, 30, 31, 30, 31, 31, 30, 31, 30, 31]

/-- Days in the months of year `y` before month `m`. -/
def daysBeforeMonth (y m : Nat) : Nat := ((monthDays y).take (m - 1)).foldl (· + ·) 0

/-- `datetime.date(y, m, d).toordinal()`: the proleptic Gregorian ordinal. -/
def toOrdinal (y m d : Nat) : Nat := daysBeforeYear y + daysBeforeMonth y m + d

/-- First match of `(\d{4})-(\d{2})-(\d{2})` at the head of the list:
four digits, a hyphen, two digits, a hyphen, two digits. -/
def dateMatchAt : List Char → Option (String × String × String)
  | a :: b :: c :: d :: '-' :: e :: f :: '-' :: g :: h :: _ =>
    if a.isDigit && b.isDigit && c.isDigit && d.isDigit
        && e.isDigit && f.isDigit && g.isDigit && h.isDigit then
      some (String.mk [a, b, c, d], String.mk [e, f], String.mk [g, h])
    else none
  | _ => none

/-- First match of `(\d{4})-(\d{2})-(\d{2})` anywhere in the list, scanning
left to right as `re.findall(...)[0]` does. -/
def dateFindall : List Char → Option (String × String × String)
  | [] => none
  | c :: rest =>
    match dateMatchAt (c :: rest) with
    | some r => some r
    | none => dateFindall rest

/-- `to_datenum(datetime)`: parse the first `YYYY-MM-DD` group of the input
and return `str(date(y, m, d).toordinal() - 693595)`.  `none` models the
`IndexError` raised by `findall(...)[0]` when the pattern does not match
(the `date(...)` validity check, which would raise on out-of-range
components, is not modelled; the claims only evaluate valid dates). -/
def to_datenum (s : String) : Option String :=
  (dateFindall s.toList).map (fun parts =>
    toString ((toOrdinal (pyNat parts.1) (pyNat parts.2.1) (pyNat parts.2.2) : Int) - 693595))

/-! ## Monitoring-status categorical decomposition
(`XMLFrame._create_monitoring_status`, `ffi_reader/base.py` lines 625-751;
the row functions are identical in `base.py` lines 557-682). -/

/-- One row as seen by the decomposition: the four designated source fields.
The outer `Option` is column presence (`'X' in row.index`), the inner is the
cell value (`none` is `NaN`). -/
structure MSRow where
  msPfx : Option (Option String)
  msBase : Option (Option String)
  msSfx : Option (Option String)
  msDflt : Option (Option String)
deriving DecidableEq

/-- The `str(row[c]).lower()` of a possibly-absent field, with `''` when the
column is absent, as all four lookups of `prefix_str` and `base_str` do. -/
def msField (f : Option (Option String)) : String :=
  match f with
  | none => ""
  | some v => pyLower (pyStr v)

/-- `prefix_str(row)`: `Post` if any field contains `post`, else `Pre` if any
contains `pre`, else the empty string. -/
def prefix_str (row : MSRow) : String :=
  let pfx := msField row.msPfx
  let base := msField row.msBase
  let sfx := msField row.msSfx
  let dflt := msField row.msDflt
  if pyIn "post" pfx || pyIn "post" base || pyIn "post" sfx || pyIn "post" dflt then "Post"
  else if pyIn "pre" pfx || pyIn "pre" base || pyIn "pre" sfx || pyIn "pre" dflt then "Pre"
  else ""

/-- `base_str(row)`: the type classification.  The first branch condition is
`'treatment' in base or 'treatment' in suffix or 'treatment' in prefix or
'treatment' or default`; its fourth disjunct is the bare literal
`'treatment'`, whose Python truthiness is tested, so it is modelled as
`pyTruthy "treatment"`. -/
def base_str (row : MSRow) : String :=
  let pfx := msField row.msPfx
  let base := msField row.msBase
  let sfx := msField row.msSfx
  let dflt := msField row.msDflt
  if pyIn "treatment" base || pyIn "treatment" sfx || pyIn "treatment" pfx
      || pyTruthy "treatment" || pyTruthy dflt then "Treatment"
  else if pyIn "measure" base || pyIn "measure" sfx || pyIn "measure" pfx
      || pyIn "measure" dflt then "Measure"
  else if pyIn "burn" base || pyIn "burn" sfx || pyIn "burn" pfx
      || pyIn "burn" dflt then "Burn"
  else ""

/-- The Python value `re_str` of `time_str`: it starts as `False` (`none`
here) and can be replaced by a list of digit runs. -/
abbrev ReStr := Option (List String)

/-- Truthiness of the guard `re_str and len(re_str) == 0`: if `re_str` is
falsy (`False` or the empty list) the `and` short-circuits to it, which is
falsy; otherwise `len(re_str) == 0` is evaluated on a nonempty list.  The
guard is therefore never satisfied. -/
def reGuard (r : ReStr) : Bool :=
  match r with
  | none => false
  | some l => !l.isEmpty && l.length == 0

/-- The final `if not re_str / elif re_str and len(re_str) == 0 / else`
cascade of `time_str`. -/
def timeFinal (r : ReStr) : String :=
  match r with
  | none => ""
  | some [] => ""
  | some (num :: _) => if num.length ≤ 2 then num ++ "year" else ""

/-- `time_str(row)`: lines 685-728 of `ffi_reader/base.py`.  `suffix` and
`prefix` hold the raw cells (`nan` when the column is absent), while `base`
and `default` are stringified and lowercased when their column is present
(so they are non-`nan` exactly when the column exists).  `re_str` is set
from `default` when that column is present; the `prefix` step and the inner
bodies of the `suffix`/`base` steps are guarded by `reGuard` and the
`suffix`/`base` cascade returns `''` early when both are `nan`. -/
def time_str (row : MSRow) : String :=
  let sfx : Option String := row.msSfx.bind id
  let pfx : Option String := row.msPfx.bind id
  let base : Option String := row.msBase.map (fun v => pyLower (pyStr v))
  let dflt : Option String := row.msDflt.map (fun v => pyLower (pyStr v))
  let re0 : ReStr := none
  let re1 : ReStr := match dflt with
    | some d => some (findallDigits d)
    | none => re0
  let re2 : ReStr := match pfx with
    | some p => if reGuard re1 then some (findallDigits p) else re1
    | none => re1
  match sfx, base with
  | some s, _ => timeFinal (if reGuard re2 then some (findallDigits s) else re2)
  | none, some b => timeFinal (if reGuard re2 then some (findallDigits b) else re2)
  | none, none => ""

/-- The digit runs of a possibly-missing field. -/
def fieldDigits : Option String → List String
  | none => []
  | some s => findallDigits s

/-- The time-frame classification as the claim words it: the first run of
digits found across the default, prefix, suffix and base fields, searched in
exactly that precedence order, emitted as `<N>year` when the run has length
at most two and as the empty string otherwise.  Stated from the
specification for comparison with `time_str`, with the same per-field
stringification the code applies. -/
def time_str_claimed (row : MSRow) : String :=
  let dflt := row.msDflt.map (fun v => pyLower (pyStr v))
  let pfx := row.msPfx.bind id
  let sfx := row.msSfx.bind id
  let base := row.msBase.map (fun v => pyLower (pyStr v))
  match fieldDigits dflt ++ fieldDigits pfx ++ fieldDigits sfx ++ fieldDigits base with
  | [] => ""
  | n :: _ => if n.length ≤ 2 then n ++ "year" else ""

/-- The amended description of `time_str`: the result is empty when the
suffix value is null (or its column absent) and the base column is absent;
otherwise only the stringified, lowercased default field is searched for
digits, and its first run is emitted as `<N>year` when its length is at
most two.  The prefix, suffix and base fields are never searched for
digits. -/
def time_str_amended (row : MSRow) : String :=
  if (row.msSfx.bind id).isNone && row.msBase.isNone then ""
  else timeFinal (some (fieldDigits (row.msDflt.map (fun v => pyLower (pyStr v)))))

/-- The four derived columns of the decomposition for one row; the composite
status is `'{}{}{}'.format(time_frame, status_prefix, monitoring_type)`. -/
structure MSOut where
  statusPfx : String
  monitoringType : String
  timeFrame : String
  monitoringStatus : String
deriving DecidableEq

/-- The row map applied by `_create_monitoring_status` once its guard
passes.  Each derived column only reads the four source fields, so running
the four `df.apply` calls in sequence equals mapping this function. -/
def msDecompose (row : MSRow) : MSOut :=
  { statusPfx := prefix_str row
    monitoringType := base_str row
    timeFrame := time_str row
    monitoringStatus := time_str row ++ prefix_str row ++ base_str row }

/-- `XMLFrame._create_monitoring_status` (frame level, `ffi_reader` guard):
runs only for frames named `monitoring_status` or `sampling_event` whose
columns do not already hold the four derived names; the result rows are
deduplicated (keep-first) only for `monitoring_status`.  The `ValueError`
raised when the guard fails is the `Except.error`. -/
def create_monitoring_status (name : String) (columns : List String)
    (rows : List MSRow) : Except String (List MSOut) :=
  if (name == "monitoring_status" || name == "sampling_event")
      && !(columns.contains "status_prefix") && !(columns.contains "monitoring_type")
      && !(columns.contains "time_frame") && !(columns.contains "monitoring_status") then
    let outs := rows.map msDecompose
    Except.ok (if name == "monitoring_status" then dedupKF [] outs else outs)
  else Except.error "ValueError"

/-! ## Synthetic keys: `XMLFrame._create_ids`
(`ffi_reader/base.py` lines 590-623). -/

/-- A data row indexed by column name, as `row[col]` sees it: `none` means
the column is missing and indexing raises `KeyError`. -/
abbrev PyRow := String → Option String

/-- Replacement of `'-'`, `'_'` and `' '` by the empty string, as the
`.replace` chains of `id_str` perform. -/
def stripSeps (s : String) : String :=
  String.mk (s.toList.filter (fun c => !(c == '-') && !(c == '_') && !(c == ' ')))

/-- `id_str(row, col_list, no_date)` of `_create_ids`: join the normalized
admin-unit fragment, the normalized plot-name fragment and (unless
`no_date`) the date ordinal with `'-'`.  A missing column raises `KeyError`
and an unparseable date raises `IndexError` inside `to_datenum`. -/
def id_str (row : PyRow) (col_list : List String) (no_date : Bool) :
    Except String String :=
  if col_list.length ≠ 3 then Except.ok ""
  else
    match eMapM (fun c =>
      match row c with
      | some v => Except.ok v
      | none => Except.error "KeyError") col_list with
    | Except.error e => Except.error e
    | Except.ok vals =>
      match vals with
      | [dateV, nameV, adminV] =>
        let norm_plot := stripSeps (pyUpper (String.join (findallWords nameV)))
        let norm_admin := stripSeps (pyUpper (pyTake 5 adminV))
        if no_date then Except.ok (norm_admin ++ "-" ++ norm_plot)
        else
          match to_datenum dateV with
          | some norm_date => Except.ok (norm_admin ++ "-" ++ norm_plot ++ "-" ++ norm_date)
          | none => Except.error "IndexError"
      | _ => Except.ok ""

/-- `XMLFrame._create_ids` for one row: the `sampling_event` frame derives
`EventID` from `SampleEvent_Date`, `MacroPlot_Name` and
`RegistrationUnit_Name`; the `plot` frame derives `PlotID` with
`no_date=True` from `MacroPlot_DateIn`, `MacroPlot_Name` and
`RegistrationUnit_Name`; any other frame name raises `KeyError`.  The result
pairs the created column name with the key value. -/
def create_ids (name : String) (row : PyRow) : Except String (String × String) :=
  if name == "sampling_event" then
    (id_str row ["SampleEvent_Date", "MacroPlot_Name", "RegistrationUnit_Name"] false).map
      (fun k => ("EventID", k))
  else if name == "plot" then
    (id_str row ["MacroPlot_DateIn", "MacroPlot_Name", "RegistrationUnit_Name"] true).map
      (fun k => ("PlotID", k))
  else Except.error "KeyError"

/-- Pointwise update of a row, used to state that a key does not depend on a
given column value. -/
def updateRow (row : PyRow) (k : String) (v : Option String) : PyRow :=
  fun c => if c = k then v else row c

/-! ## Document ingestion: `FFIFile._parse_data`
(`ffi_reader/base.py` lines 161-178) and the earlier revision's
`FFIFile.__getitem__` (`base.py` lines 133-142). -/

/-- One record element: its immediate children as (stripped tag, text)
pairs; a missing text is `none`. -/
abbrev ElemRow := List (String × Option String)

/-- The fixed enumerated set of required record-type names
(`needed_tables`). -/
def neededTables : List String :=
  ["MacroPlot", "RegistrationUnit", "MM_ProjectUnit_MacroPlot", "ProjectUnit",
   "SampleEvent", "MM_MonitoringStatus_SampleEvent", "MonitoringStatus",
   "MethodAttribute", "AttributeData", "Method", "LU_DataType", "Schema_Version",
   "MasterSpecies", "SampleData", "SampleAttribute", "LocalSpecies"]

/-- `FFIFile._parse_data` of `ffi_reader/base.py`: for each needed
record-type name, collect its elements (`findall`) and concatenate the
per-element one-row tables.  `pandas.concat` of an empty list raises
`ValueError: No objects to concatenate`, so a record type with zero
elements aborts parsing. -/
def parse_data (doc : String → List ElemRow) :
    Except String (List (String × List ElemRow)) :=
  eMapM (fun t =>
    if (doc t).isEmpty then Except.error "No objects to concatenate"
    else Except.ok (t, doc t)) neededTables

/-- `FFIFile.__getitem__` of the earlier revision (`base.py`): `tables` is
the set of tags actually present in the document, and indexing a name not in
it raises `KeyError('{} not in FFI XML file.')`. -/
def ffifile_getitem (tables : List String) (dataMap : String → List ElemRow)
    (item : String) : Except String (List ElemRow) :=
  if tables.contains item then Except.ok (dataMap item)
  else Except.error (item ++ " not in FFI XML file.")

/-! ## Reference-table write filter: `XMLFrame._filter_exists`
(`ffi_reader/base.py` lines 881-908). -/

/-- The database exception classes distinguished by the `except` clauses. -/
inductive DBErr
  | programmingError
  | internalError
  | operationalError
deriving DecidableEq

/-- The (query, check column) pair chosen per reference table. -/
def refQuery (name : String) : String × String :=
  if name == "monitoring_status" then
    ("select distinct monitoring_status from monitoring_status", "monitoring_status")
  else if name == "species" then
    ("select distinct symbol from species", "symbol")
  else
    ("select distinct admin_unit from admin_unit", "admin_unit")

/-- `XMLFrame._filter_exists`: for the three reference tables, look up the
distinct existing natural-key values and keep only the rows whose key is not
among them (`~isin`).  A `ProgrammingError` (e.g. the destination table does
not exist yet) leaves the frame unchanged.  The second `except` clause of
the source names the nonexistent attribute `exc.InteralError` (a typo for
`InternalError`), so any other database exception escapes as an
`AttributeError` while being matched.  Other frame names are untouched. -/
def filter_exists (name : String) (rows : List PyRow)
    (conn : String → Except DBErr (List (Option String))) :
    Except String (List PyRow) :=
  if name == "monitoring_status" || name == "species" || name == "admin_unit" then
    match conn (refQuery name).1 with
    | Except.ok check_list =>
      Except.ok (rows.filter (fun r => !(check_list.contains (r (refQuery name).2))))
    | Except.error DBErr.programmingError => Except.ok rows
    | Except.error _ => Except.error "AttributeError"
  else Except.ok rows

/-! ## Projection with default fill: `XMLFrame.__getitem__`
(`ffi_reader/base.py` lines 550-581; identical in `base.py` lines 486-517). -/

/-- A pandas DataFrame for the projection behaviour: an ordered list of
(label, column) pairs, a column being a function from row position to cell
value, plus the row count. -/
structure Df where
  nrows : Nat
  columns : List (String × (Nat → Option String))

/-- The column labels, `df.keys()`. -/
def Df.colNames (df : Df) : List String := df.columns.map Prod.fst

/-- The first column carrying a label, as pandas label lookup resolves it. -/
def Df.getCol (df : Df) (c : String) : Option (Nat → Option String) :=
  (df.columns.find? (fun p => p.1 == c)).map Prod.snd

/-- The all-null column produced by `self.df[col] = None`. -/
def nullCol : Nat → Option String := fun _ => none

/-- `self.df[col] = None`: overwrite the column when the label exists,
otherwise append a new all-null column. -/
def setNullCol (df : Df) (c : String) : Df :=
  if df.colNames.contains c then
    { df with columns := df.columns.map (fun p => if p.1 = c then (p.1, nullCol) else p) }
  else
    { df with columns := df.columns ++ [(c, nullCol)] }

/-- The argument of `XMLFrame.__getitem__`: an ordered column list, or an
old-name-to-new-name mapping (Python dict keys are unique and ordered). -/
inductive ColsArg
  | colList (l : List String)
  | colDict (m : List (String × String))

/-- The columns to select, `list(cols.keys())` for a dict. -/
def ColsArg.keys : ColsArg → List String
  | .colList l => l
  | .colDict m => m.map Prod.fst

/-- The output label of a selected column: the dict value under rename, the
name itself otherwise. -/
def ColsArg.outName (arg : ColsArg) (c : String) : String :=
  match arg with
  | .colList _ => c
  | .colDict m => (((m.find? (fun q => q.1 == c)).map Prod.snd).getD c)

/-- `XMLFrame.__getitem__`: try `self.df[new_cols]`; a `KeyError` (some
requested column absent) is handled by creating each missing column as
all-null in `self.df` itself and reindexing; a dict argument renames the
selected columns.  The result pairs the mutated source DataFrame with the
new frame's DataFrame. -/
def getItem (df : Df) (arg : ColsArg) : Df × Df :=
  let new_cols := arg.keys
  let dfM :=
    if new_cols.all (fun c => df.colNames.contains c) then df
    else (new_cols.filter (fun c => !(df.colNames.contains c))).foldl setNullCol df
  let sel : Df :=
    { nrows := df.nrows
      columns := new_cols.map (fun c => (c, (dfM.getCol c).getD nullCol)) }
  let res : Df :=
    match arg with
    | .colList _ => sel
    | .colDict _ => { sel with columns := sel.columns.map (fun p => (arg.outName p.1, p.2)) }
  (dfM, res)

/-! ## Grouped pivot: `XMLFrame.pivot_data` on the `method_data` frame
(`ffi_reader/base.py` lines 993-1035), together with `_cast_frame`
(lines 830-879) and `_clean_col_names` (lines 817-828).  The frame reaching
`pivot_data` holds exactly the six projected columns, so its rows are
modelled as records; the pivot index is the `['event_id', 'data_row_id']`
list passed at the call site. -/

/-- One row of the projected `method_data` frame. -/
structure MDRow where
  data_row_id : Option String
  event_id : Option String
  method : Option String
  field_name : Option String
  data_value : Option String
  data_type : Option String
deriving DecidableEq

/-- A concrete pivoted table: ordered (label, cells) columns, all cell lists
of equal length. -/
abbrev PTable := List (String × List (Option String))

/-- Row count of a table (pandas `len(df)`). -/
def tableNRows (t : PTable) : Nat :=
  match t with
  | [] => 0
  | p :: _ => p.2.length

/-- The group keys of `groupby(by='method')`: the distinct non-null method
values (pandas drops `NaN` keys; it also sorts the keys, an ordering no
claim depends on, so first-occurrence order is used here). -/
def methodKeys (rows : List MDRow) : List String :=
  dedupKF [] (rows.filterMap (fun r => r.method))

/-- The rows of one method group, in input order. -/
def groupOf (rows : List MDRow) (k : String) : List MDRow :=
  rows.filter (fun r => r.method == some k)

/-- The distinct `(event_id, data_row_id)` index tuples of a group, the row
identity of the pivot (pandas sorts them; first-occurrence order here). -/
def idxPairs (g : List MDRow) : List (Option String × Option String) :=
  dedupKF [] (g.map (fun r => (r.event_id, r.data_row_id)))

/-- The distinct non-null field names of a group, the new column labels of
the pivot (a `NaN` field name would become a `NaN` column label; the
theorems assume field names are populated). -/
def fieldsOf (g : List MDRow) : List String :=
  dedupKF [] (g.filterMap (fun r => r.field_name))

/-- Executable no-duplicates test. -/
def nodupB [DecidableEq α] : List α → Bool
  | [] => true
  | a :: l => !(l.contains a) && nodupB l

/-- The cell of the pivot at index tuple `p` and field `f`: the
`data_value` of the matching row, `NaN` when no row matches. -/
def pivotCell (g : List MDRow) (p : Option String × Option String) (f : String) :
    Option String :=
  (g.find? (fun r => (r.event_id == p.1) && (r.data_row_id == p.2)
    && (r.field_name == some f))).bind (fun r => r.data_value)

/-- `temp_type.pivot(index=['event_id','data_row_id'], columns='field_name',
values='data_value').reset_index()`: one row per distinct index tuple, the
index columns first, one column per distinct field name.  pandas raises
`ValueError: Index contains duplicate entries, cannot reshape` when an
(index, column) pair occurs twice. -/
def pivotGroupTable (g : List MDRow) : Except String PTable :=
  if nodupB (g.map (fun r => (r.event_id, r.data_row_id, r.field_name))) then
    let ps := idxPairs g
    Except.ok (("event_id", ps.map Prod.fst) ::
               ("data_row_id", ps.map Prod.snd) ::
               (fieldsOf g).map (fun f => (f, ps.map (fun p => pivotCell g p f))))
  else Except.error "Index contains duplicate entries, cannot reshape"

/-- `temp[attr] = None` on a pivoted table: overwrite an existing column
with nulls or append a new all-null column. -/
def setTableColNone (t : PTable) (a : String) : PTable :=
  if (t.map Prod.fst).contains a then
    t.map (fun p => if p.1 = a then (p.1, List.replicate p.2.length none) else p)
  else t ++ [(a, List.replicate (tableNRows t) none)]

/-- Keep the positions of `col` at which `mask` is non-null. -/
def maskFilter (mask col : List (Option String)) : List (Option String) :=
  (List.zip mask col).filterMap (fun mv => if mv.1.isSome then some mv.2 else none)

/-- `temp.loc[~isna(temp['data_row_id'])]`: drop the rows whose
`data_row_id` cell is null (`KeyError` if the column is absent, which the
construction above never produces). -/
def tableFilterRows (t : PTable) : Except String PTable :=
  match (t.find? (fun p => p.1 == "data_row_id")).map Prod.snd with
  | some dcol => Except.ok (t.map (fun p => (p.1, maskFilter dcol p.2)))
  | none => Except.error "KeyError"

/-- The `type_mapping` dict of `_cast_frame`. -/
def type_mapping : List (String × String) :=
  [("Float", "float64"), ("Long", "int64"), ("Boolean", "bool"),
   ("Date/Time", "datetime64"), ("Text", "str"), ("Index", "int64"),
   ("Species", "str"), ("Memo", "str"), ("GUID", "str")]

/-- `dict(zip(field_list, type_list))[k]`: a later pair overwrites an
earlier one with the same key, so the lookup takes the last match. -/
def typeDictLookup (tt : List MDRow) (k : String) : Option (Option String) :=
  (tt.reverse.find? (fun r => r.field_name == some k)).map (fun r => r.data_type)

/-- Whether a string is a Python integer literal, for `astype('int64')`. -/
def isIntLit (s : String) : Bool :=
  match s.toList with
  | [] => false
  | '-' :: rest => !rest.isEmpty && rest.all Char.isDigit
  | l => l.all Char.isDigit

/-- One cell under `_cast_frame`, a modelled abstraction of pandas
`astype`: values stay strings here (their native-typed rendering is not
claim-relevant), nulls are pre-filled with `0`/`''` for integer and string
targets exactly as the source does, and a conversion that pandas would
reject raises `ValueError`. -/
def castCell (dfType : String) (v : Option String) : Except String (Option String) :=
  if dfType == "int64" then
    match v with
    | none => Except.ok (some "0")
    | some s => if isIntLit s then Except.ok (some s) else Except.error "ValueError"
  else if dfType == "str" then
    Except.ok (some (v.getD ""))
  else if dfType == "float64" then
    match v with
    | none => Except.ok none
    | some s => if s.toList.all (fun c => c.isDigit || c == '.' || c == '-') && !s.isEmpty
        then Except.ok (some s) else Except.error "ValueError"
  else if dfType == "bool" then
    Except.ok (some (match v with
      | none => "True"
      | some s => if s == "" then "False" else "True"))
  else if dfType == "datetime64" then
    match v with
    | none => Except.ok none
    | some s => if (dateFindall s.toList).isSome then Except.ok (some s)
        else Except.error "ValueError"
  else Except.error "KeyError"

/-- One column under `_cast_frame` on a pivoted method table: the excluded
index columns (`method_type` is set for these frames) are left untouched;
any other column is cast cell by cell according to its declared type; a
field missing from the dict or mapped to an unknown type tag raises
`KeyError`. -/
def castColumn (tt : List MDRow) (p : String × List (Option String)) :
    Except String (String × List (Option String)) :=
  if (["event_id", "data_row_id"] : List String).contains p.1 then Except.ok p
  else
    match typeDictLookup tt p.1 with
    | none => Except.error "KeyError"
    | some none => Except.error "KeyError"
    | some (some ty) =>
      match (type_mapping.find? (fun q => q.1 == ty)).map Prod.snd with
      | none => Except.error "KeyError"
      | some dfType =>
        match eMapM (castCell dfType) p.2 with
        | Except.error e => Except.error e
        | Except.ok cells => Except.ok (p.1, cells)

/-- `XMLFrame._cast_frame(type_df)` on a pivoted method table: build the
field-to-type dict from the group rows and cast every non-index column by
its declared type.  A `KeyError` anywhere inside the `try` block (a column
missing from the dict, or a type tag missing from `type_mapping`) is
re-raised as `'{name} frame is the wrong format to be cast.'`; an `astype`
failure (`ValueError`) propagates unchanged.  The `columns.remove` calls
never raise here because the pivot construction always carries the two
index columns. -/
def cast_frame (name : String) (t : PTable) (tt : List MDRow) : Except String PTable :=
  match eMapM (castColumn tt) t with
  | Except.error e =>
    if e == "KeyError" then
      Except.error (name ++ " frame is the wrong format to be cast.")
    else Except.error e
  | Except.ok t2 => Except.ok t2

/-- `XMLFrame._clean_col_names`: normalize every column label. -/
def clean_col_names (t : PTable) : PTable :=
  t.map (fun p => (normalize_string p.1, p.2))

/-! ### The automatic transforms of `XMLFrame.__init__`
(`ffi_reader/base.py` lines 503-548): `pivot_data` constructs each pivoted
method table as `XMLFrame(table_name, temp_df, method_type=True)`, without
`skip_id`, so the constructor attempts `_create_ids`,
`_create_monitoring_status`, `_process_attr_name` and
`_process_attr_value` on it in order, each wrapped in a `try` that catches
only that step's named exception. -/

/-- `col in self.df.keys()`: whether the table carries the column.  All rows
of a frame share one column set, so `row[col]` raising `KeyError` inside a
`df.apply` is decided per table, not per row. -/
def hasCol (t : PTable) (c : String) : Bool := (t.map Prod.fst).contains c

/-- `row[col]` for row `i` of a table: the cell of the first column labelled
`c` (`none` is a `NaN` cell; callers check presence with `hasCol` first,
since absence raises `KeyError` instead). -/
def tableCell (t : PTable) (c : String) (i : Nat) : Option String :=
  match t.find? (fun p => p.1 == c) with
  | some p => p.2.getD i none
  | none => none

/-- `self.df[c] = vals`: overwrite the column when the label exists, append
it otherwise. -/
def setTableCol (t : PTable) (c : String) (vals : List (Option String)) : PTable :=
  if (t.map Prod.fst).contains c then
    t.map (fun p => if p.1 = c then (p.1, vals) else p)
  else t ++ [(c, vals)]

/-- The full cell tuple of row `i`, in column order. -/
def tableRowVec (t : PTable) (i : Nat) : List (Option String) :=
  t.map (fun p => p.2.getD i none)

/-- pandas `drop_duplicates(keep='first')` on a table: keep each row whose
full cell tuple did not already occur at a smaller index. -/
def tableDropDups (t : PTable) : PTable :=
  let keep := (List.range (tableNRows t)).filter
    (fun i => ((List.range i).filter (fun j => tableRowVec t j == tableRowVec t i)).isEmpty)
  t.map (fun p => (p.1, keep.map (fun i => p.2.getD i none)))

/-- The body of `id_str` once the three columns exist (so no `KeyError`):
a `NaN` in a used cell raises an uncaught `TypeError` in the string
operations, in the source's evaluation order (`findall` on the plot name,
the `[:5]` slice of the admin unit, then `to_datenum` on the date unless
`no_date`); an unparseable date raises `IndexError` inside `to_datenum`.
The `len(col_list) != 3` early return is unreachable from `_create_ids`,
whose two column lists are literals of length three. -/
def id_str_vals (dateV nameV adminV : Option String) (no_date : Bool) :
    Except String String :=
  match nameV with
  | none => Except.error "TypeError"
  | some nameS =>
    let norm_plot := stripSeps (pyUpper (String.join (findallWords nameS)))
    match adminV with
    | none => Except.error "TypeError"
    | some adminS =>
      let norm_admin := stripSeps (pyUpper (pyTake 5 adminS))
      if no_date then Except.ok (norm_admin ++ "-" ++ norm_plot)
      else
        match dateV with
        | none => Except.error "TypeError"
        | some dateS =>
          match to_datenum dateS with
          | some norm_date =>
            Except.ok (norm_admin ++ "-" ++ norm_plot ++ "-" ++ norm_date)
          | none => Except.error "IndexError"

/-- `XMLFrame._create_ids` under the constructor's `try/except KeyError`:
for a frame name other than `sampling_event` and `plot` the immediate
`raise KeyError` is caught and the frame is unchanged; for those names a
missing source column makes `row[col]` raise a caught `KeyError` (frame
unchanged), while present columns are joined into the key column row by row
(`df.apply` on an empty frame maps nothing and adds the column empty), with
any `TypeError`/`IndexError` from `id_str` propagating uncaught. -/
def ctor_create_ids (name : String) (t : PTable) : Except String PTable :=
  if name == "sampling_event" || name == "plot" then
    let c1 := if name == "plot" then "MacroPlot_DateIn" else "SampleEvent_Date"
    let out := if name == "plot" then "PlotID" else "EventID"
    if tableNRows t == 0 then Except.ok (setTableCol t out [])
    else if hasCol t c1 && hasCol t "MacroPlot_Name"
        && hasCol t "RegistrationUnit_Name" then
      match eMapM (fun i =>
          id_str_vals (tableCell t c1 i) (tableCell t "MacroPlot_Name" i)
            (tableCell t "RegistrationUnit_Name" i) (name == "plot"))
        (List.range (tableNRows t)) with
      | Except.ok vs => Except.ok (setTableCol t out (vs.map (fun v => some v)))
      | Except.error e => Except.error e
    else Except.ok t
  else Except.ok t

/-- The `MSRow` view of one table row: each field pairs column presence
(`'X' in row.index`) with the raw cell. -/
def msRowOf (t : PTable) (i : Nat) : MSRow :=
  ⟨if hasCol t "MonitoringStatus_Prefix"
     then some (tableCell t "MonitoringStatus_Prefix" i) else none,
   if hasCol t "MonitoringStatus_Base"
     then some (tableCell t "MonitoringStatus_Base" i) else none,
   if hasCol t "MonitoringStatus_Suffix"
     then some (tableCell t "MonitoringStatus_Suffix" i) else none,
   if hasCol t "SampleEvent_DefaultMonitoringStatus"
     then some (tableCell t "SampleEvent_DefaultMonitoringStatus" i) else none⟩

/-- `XMLFrame._create_monitoring_status` under the constructor's
`try/except ValueError`: when the guard fails the explicit `raise
ValueError` is caught and the frame is unchanged; otherwise the four
derived columns are appended row by row and, for the `monitoring_status`
frame, full duplicate rows are dropped.  The row functions are total, so
this step propagates no exception. -/
def ctor_monitoring_status (name : String) (t : PTable) : PTable :=
  if (name == "monitoring_status" || name == "sampling_event")
      && !hasCol t "status_prefix" && !hasCol t "monitoring_type"
      && !hasCol t "time_frame" && !hasCol t "monitoring_status" then
    let outs := (List.range (tableNRows t)).map (fun i => msDecompose (msRowOf t i))
    let t4 := setTableCol (setTableCol (setTableCol (setTableCol t
      "status_prefix" (outs.map (fun o => some o.statusPfx)))
      "monitoring_type" (outs.map (fun o => some o.monitoringType)))
      "time_frame" (outs.map (fun o => some o.timeFrame)))
      "monitoring_status" (outs.map (fun o => some o.monitoringStatus))
    if name == "monitoring_status" then tableDropDups t4 else t4
  else t

/-- The first match of `Trees - (\w+)` at the head of the list: the literal
followed by a nonempty word run; the run is the capture. -/
def treesMatchAt (l : List Char) : Option String :=
  if List.isPrefixOf "Trees - ".toList l then
    let run := (l.drop 8).takeWhile wordChar
    if run.isEmpty then none else some (String.mk run)
  else none

/-- `re.findall(r'Trees - (\w+)', s)[0]`: scan left to right for the first
match, fuelled by the list length. -/
def treesFindF : Nat → List Char → Option String
  | 0, _ => none
  | _ + 1, [] => none
  | fuel + 1, c :: rest =>
    match treesMatchAt (c :: rest) with
    | some w => some w
    | none => treesFindF fuel rest

/-- The first capture of `Trees - (\w+)` in a string, `none` when `findall`
returns no match (so the `[0]` subscript raises `IndexError`). -/
def treesFind (s : String) : Option String := treesFindF s.toList.length s.toList

/-- The character class `[\w -_]`: a word character, or the ASCII range
from `' '` to `'_'` (codes 32-95; the `-` between them makes a range). -/
def teamClass (c : Char) : Bool := wordChar c || (32 ≤ c.toNat && c.toNat ≤ 95)

/-- The character class `[\w ]`. -/
def innerClass (c : Char) : Bool := wordChar c || c == ' '

/-- One backtracking attempt of `([\w -_]+)\([\w ]+\)` anchored at `l`: try
group length `len`, require `'('`, then a nonempty `[\w ]` run closed by
`')'` (the inner group cannot backtrack usefully because `')'` is outside
its class), and shrink the greedy group on failure.  Callers start `len` at
the maximal `[\w -_]` run, so every tried group stays inside the class. -/
def teamMatchLen (l : List Char) : Nat → Option String
  | 0 => none
  | len + 1 =>
    match l.drop (len + 1) with
    | '(' :: rest =>
      let run := rest.takeWhile innerClass
      if !run.isEmpty && headIsClose (rest.drop run.length) then
        some (String.mk (l.take (len + 1)))
      else teamMatchLen l len
    | _ => teamMatchLen l len

/-- `re.findall(r'([\w -_]+)\([\w ]+\)', s)[0]`: leftmost match with a
greedy first group, scanning one position forward on failure. -/
def teamFindF : Nat → List Char → Option String
  | 0, _ => none
  | _ + 1, [] => none
  | fuel + 1, c :: rest =>
    match teamMatchLen (c :: rest) ((c :: rest).takeWhile teamClass).length with
    | some w => some w
    | none => teamFindF fuel rest

/-- The first capture of `([\w -_]+)\([\w ]+\)` in a string, `none` when no
match exists (so the `[0]` subscript raises `IndexError`). -/
def teamFind (s : String) : Option String := teamFindF s.toList.length s.toList

/-- The `event_detail` branch of `attr_name` in `_process_attr_name`:
`re.match(r'Trees - .*', method_name)` is computed first and raises an
uncaught `TypeError` on a `NaN` method name; it is truthy exactly when the
name starts with `Trees - `.  An empty `findall` result makes the `[0]`
subscript raise an uncaught `IndexError`. -/
def attr_name_event (field_name method_name : Option String) :
    Except String (Option String) :=
  match method_name with
  | none => Except.error "TypeError"
  | some m =>
    if field_name == some "MacroPlotSize"
        && List.isPrefixOf "Trees - ".toList m.toList then
      match treesFind m with
      | none => Except.error "IndexError"
      | some w =>
        let method := if w == "Individuals" then "Trees" else w
        Except.ok (some ("MacroPlotSize_" ++ String.mk (method.toList.take 1)))
    else if field_name == some "FieldTeam" || field_name == some "EntryTeam" then
      let clean_method := String.mk (m.toList.filter (fun c => !(c == ' ') && !(c == '-')))
      if clean_method.toList.contains '(' then
        match teamFind clean_method with
        | none => Except.error "IndexError"
        | some w => Except.ok (some (pyStr field_name ++ "_" ++ w))
      else Except.ok (some (pyStr field_name ++ "_" ++ clean_method))
    else Except.ok field_name

/-- `XMLFrame._process_attr_name` under the constructor's
`try/except ValueError`: a frame name outside `event_detail` and
`method_data` raises the caught `ValueError` (frame unchanged); otherwise
the mapped `FieldName` column is added, with `row[...]` on a missing source
column an uncaught `KeyError` (`df.apply` on an empty frame maps nothing
and adds the column empty). -/
def ctor_attr_name (name : String) (t : PTable) : Except String PTable :=
  if name == "event_detail" then
    if tableNRows t == 0 then Except.ok (setTableCol t "FieldName" [])
    else if hasCol t "SampleAtt_FieldName" && hasCol t "Method_Name" then
      match eMapM (fun i => attr_name_event (tableCell t "SampleAtt_FieldName" i)
          (tableCell t "Method_Name" i)) (List.range (tableNRows t)) with
      | Except.ok vs => Except.ok (setTableCol t "FieldName" vs)
      | Except.error e => Except.error e
    else Except.error "KeyError"
  else if name == "method_data" then
    if tableNRows t == 0 then Except.ok (setTableCol t "FieldName" [])
    else if hasCol t "MethodAtt_FieldName" then
      Except.ok (setTableCol t "FieldName"
        ((List.range (tableNRows t)).map (fun i =>
          let v := tableCell t "MethodAtt_FieldName" i
          if v == some "Comment" then some "note" else v)))
    else Except.error "KeyError"
  else Except.ok t

/-- `XMLFrame._process_attr_value` under the constructor's
`try/except ValueError`: a frame name outside `event_detail` and
`method_data` raises the caught `ValueError` (frame unchanged); otherwise
`row['SampleData_Value']` is stringified when that column exists, and the
inner `except KeyError` falls back to the species symbol when non-null and
the stringified `AttributeData_Value` otherwise, with a `KeyError` on those
fallback columns uncaught. -/
def ctor_attr_value (name : String) (t : PTable) : Except String PTable :=
  if name == "event_detail" || name == "method_data" then
    if tableNRows t == 0 then Except.ok (setTableCol t "DataValue" [])
    else if hasCol t "SampleData_Value" then
      Except.ok (setTableCol t "DataValue"
        ((List.range (tableNRows t)).map (fun i =>
          some (pyStr (tableCell t "SampleData_Value" i)))))
    else if hasCol t "AttributeData_Value" then
      if hasCol t "LocalSpecies_Symbol" then
        Except.ok (setTableCol t "DataValue"
          ((List.range (tableNRows t)).map (fun i =>
            match tableCell t "LocalSpecies_Symbol" i with
            | some sp => some sp
            | none => some (pyStr (tableCell t "AttributeData_Value" i)))))
      else Except.error "KeyError"
    else Except.error "KeyError"
  else Except.ok t

/-- `XMLFrame(table_name, temp_df, method_type=True)` as `pivot_data`
invokes it on each pivoted method table: the `df.drop('index')` attempt
always raises a caught `KeyError` on the integer-indexed pivoted frame,
then the four transform steps run in order, each with only its own named
exception caught; any other exception aborts the pivot. -/
def xmlframe_init (name : String) (t : PTable) : Except String PTable :=
  match ctor_create_ids name t with
  | Except.error e => Except.error e
  | Except.ok t1 =>
    match ctor_attr_name name (ctor_monitoring_status name t1) with
    | Except.error e => Except.error e
    | Except.ok t3 => ctor_attr_value name t3

/-- Whether a normalized method name collides with a frame name for which
one of the constructor transforms acts, i.e. appears in the guard of
`_create_ids`, `_create_monitoring_status`, `_process_attr_name` or
`_process_attr_value`. -/
def roleLike (n : String) : Bool :=
  n == "sampling_event" || n == "plot" || n == "monitoring_status" ||
  n == "event_detail" || n == "method_data"

/-- One output frame of the grouped pivot. -/
structure PFrame where
  name : String
  table : PTable
deriving Inhabited

/-- The body of the per-method loop of `pivot_data`: pivot the group, add an
all-null column for every field name seen only in null-`data_row_id` rows of
this method (growing the cast lookup input by those rows, as the repeated
`concat` does), drop pivoted rows with a null `data_row_id`, construct the
`XMLFrame` (running the constructor's automatic transforms on the pivoted
table under the normalized method name), cast, and clean the column
names. -/
def processMethodGroup (method_data method_data_null : List MDRow) (k : String) :
    Except String PFrame :=
  match pivotGroupTable (groupOf method_data k) with
  | Except.error e => Except.error e
  | Except.ok temp =>
    let null_fields := method_data_null.filter (fun r => r.method == some k)
    let step :=
      if null_fields.length > 0 then
        (dedupKF [] (null_fields.filterMap (fun r => r.field_name))).foldl
          (fun acc a => (setTableColNone acc.1 a, acc.2 ++ null_fields))
          (temp, groupOf method_data k)
      else (temp, groupOf method_data k)
    match tableFilterRows step.1 with
    | Except.error e => Except.error e
    | Except.ok temp_df =>
      match xmlframe_init (normalize_string k) temp_df with
      | Except.error e => Except.error e
      | Except.ok inited =>
        match cast_frame (normalize_string k) inited step.2 with
        | Except.error e => Except.error e
        | Except.ok casted => Except.ok ⟨normalize_string k, clean_col_names casted⟩

/-- `XMLFrame.pivot_data(['event_id','data_row_id'])` on the `method_data`
frame: split off the rows with a null `data_row_id`, group the rest by
method, and process each group; the resulting frames become the frame's
pivot list. -/
def pivot_data (rows : List MDRow) : Except String (List PFrame) :=
  let method_data_null := rows.filter (fun r => r.data_row_id.isNone)
  let method_data := rows.filter (fun r => !r.data_row_id.isNone)
  eMapM (processMethodGroup method_data method_data_null) (methodKeys method_data)

/-! ## Helper lemmas -/

/-- Keep-first deduplication only drops elements. -/
theorem mem_of_mem_dedupKF [DecidableEq α] {x : α} :
    ∀ (seen l : List α), x ∈ dedupKF seen l → x ∈ l := by
  intro seen l
  induction l generalizing seen with
  | nil => simp [dedupKF]
  | cons a t ih =>
    simp only [dedupKF]
    split
    · intro h
      exact List.mem_cons_of_mem a (ih _ h)
    · intro h
      rcases List.mem_cons.mp h with h1 | h2
      · exact h1 ▸ List.mem_cons_self a t
      · exact List.mem_cons_of_mem a (ih _ h2)

/-- The type classification of the decomposition is `Treatment` on every
row: the fourth disjunct of its first branch is the truthy literal
`'treatment'`. -/
theorem base_str_eq_treatment (row : MSRow) : base_str row = "Treatment" := by
  have h : pyTruthy "treatment" = true := by decide
  simp [base_str, h]

/-- The guard `re_str and len(re_str) == 0` of `time_str` is never
satisfied. -/
theorem reGuard_eq_false (r : ReStr) : reGuard r = false := by
  cases r with
  | none => rfl
  | some l => cases l with
    | nil => rfl
    | cons a t => simp [reGuard]

/-! ## C1 -/

/-- C1: whenever the monitoring-status decomposition runs, the type
classification assigns `Treatment` to every produced row, because the
`Treatment` branch of `base_str` contains the always-truthy literal
disjunct `'treatment'`, leaving `Measure` and `Burn` unreachable. -/
theorem c1_type_classification_always_treatment
    (name : String) (columns : List String) (rows : List MSRow) (outs : List MSOut)
    (h : create_monitoring_status name columns rows = Except.ok outs) :
    ∀ o ∈ outs, o.monitoringType = "Treatment" := by
  intro o ho
  unfold create_monitoring_status at h
  split at h
  · simp only [Except.ok.injEq] at h
    subst h
    have hmem : o ∈ rows.map msDecompose := by
      split at ho
      · exact mem_of_mem_dedupKF _ _ ho
      · exact ho
    rcases List.mem_map.mp hmem with ⟨r, _, rfl⟩
    exact base_str_eq_treatment r
  · cases h

/-- C1 witness: a concrete `Measure`-worded row still classifies as
`Treatment`. -/
theorem c1_witness :
    (⟨"", "Treatment", "", "Treatment"⟩ : MSOut).monitoringType = "Treatment" :=
  c1_type_classification_always_treatment "monitoring_status" ["MonitoringStatus_Base"]
    [⟨none, some (some "Measure"), none, none⟩] _ (by rfl)
    ⟨"", "Treatment", "", "Treatment"⟩ (List.mem_cons_self _ _)

/-! ## C3 -/

/-- C3: evaluation of `to_datenum` at the claimed epoch: with the source's
offset 693595, the date 1900-01-01 yields ordinal string `"1"` (not `"0"`)
and 1900-01-02 yields `"2"` (not `"1"`); the proleptic Gregorian ordinal of
1900-01-01 is 693596, one more than the offset the source comments call the
`datetime int value of 1/1/1900`. -/
theorem c3_date_ordinal_off_by_one :
    to_datenum "1900-01-01" = some "1" ∧ to_datenum "1900-01-02" = some "2" ∧
    to_datenum "1900-01-01" ≠ some "0" ∧ toOrdinal 1900 1 1 = 693596 :=
  ⟨by decide, by decide, by decide, by decide⟩

/-! ## C5 -/

/-- C5 counterexample: a row whose prefix field is `5year` but whose default
field has no digits is classified with an empty time frame by the code,
while the claimed default-prefix-suffix-base digit search yields `5year`. -/
theorem c5_counterexample :
    time_str ⟨some (some "5year"), some (some "b"), some (some "x"), some (some "pre")⟩ = "" ∧
    time_str_claimed ⟨some (some "5year"), some (some "b"), some (some "x"), some (some "pre")⟩
      = "5year" ∧
    ("" : String) ≠ "5year" :=
  ⟨by decide, by decide, by decide⟩

/-- C5 amended: the time-frame classification searches only the default
field for digits; it is empty when the suffix value is null and the base
column is absent, and otherwise equals the first digit run of the
stringified lowercased default field rendered as `<N>year` when that run
has length at most two. -/
theorem c5_time_frame_searches_default_only (row : MSRow) :
    time_str row = time_str_amended row := by
  obtain ⟨pfx, base, sfx, dflt⟩ := row
  simp only [time_str, time_str_amended]
  rcases pfx with _ | ⟨_ | p⟩ <;> rcases base with _ | b <;>
    rcases sfx with _ | ⟨_ | sv⟩ <;> rcases dflt with _ | d <;>
    simp [reGuard_eq_false, timeFinal, fieldDigits]

/-! ## C8 -/

/-- C8: for each reference-style table, the write filter removes the rows
whose natural-key value is among the destination's distinct existing
values, and a `ProgrammingError` from the lookup (the destination table not
existing yet) leaves the frame unfiltered and is not fatal. -/
theorem c8_reference_filter_and_lookup_failure
    (name : String) (rows : List PyRow)
    (conn : String → Except DBErr (List (Option String)))
    (hname : name = "monitoring_status" ∨ name = "species" ∨ name = "admin_unit") :
    (conn (refQuery name).1 = Except.error DBErr.programmingError →
       filter_exists name rows conn = Except.ok rows) ∧
    (∀ lst, conn (refQuery name).1 = Except.ok lst →
       filter_exists name rows conn =
         Except.ok (rows.filter (fun r => !(lst.contains (r (refQuery name).2))))) := by
  have hcond : (name == "monitoring_status" || name == "species" || name == "admin_unit") = true := by
    rcases hname with h | h | h <;> subst h <;> decide
  constructor
  · intro hpe
    unfold filter_exists
    rw [if_pos hcond, hpe]
  · intro lst hok
    unfold filter_exists
    rw [if_pos hcond, hok]

/-- C8 witness: a failed lookup on a missing `species` table writes the
frame unfiltered, and a successful `admin_unit` lookup filters the existing
key out. -/
theorem c8_witness :
    filter_exists "species" [fun _ => some "ABCO"]
        (fun _ => Except.error DBErr.programmingError) =
      Except.ok [fun _ => some "ABCO"] ∧
    filter_exists "admin_unit" [fun _ => some "Gila"]
        (fun _ => Except.ok [some "Gila"]) =
      Except.ok ([] : List PyRow) :=
  ⟨(c8_reference_filter_and_lookup_failure "species" _ _ (Or.inr (Or.inl rfl))).1 rfl,
   (c8_reference_filter_and_lookup_failure "admin_unit" _ _ (Or.inr (Or.inr rfl))).2
     [some "Gila"] rfl⟩

/-! ## C7: grouped-pivot lemmas -/

/-- An effectful map whose steps all succeed succeeds, relating input and
output pointwise. -/
theorem eMapM_shape {f : α → Except ε β} (P : α → β → Prop) :
    ∀ l : List α, (∀ a ∈ l, ∃ b, f a = Except.ok b ∧ P a b) →
    ∃ out, eMapM f l = Except.ok out ∧ List.Forall₂ P l out := by
  intro l
  induction l with
  | nil =>
    intro h
    exact ⟨[], rfl, List.Forall₂.nil⟩
  | cons a as ih =>
    intro h
    rcases h a (List.mem_cons_self a as) with ⟨b, hb, hPb⟩
    rcases ih (fun x hx => h x (List.mem_cons_of_mem a hx)) with ⟨out, hout, hP⟩
    refine ⟨b :: out, ?_, List.Forall₂.cons hPb hP⟩
    simp only [eMapM]
    rw [hb, hout]

/-- A pointwise relation that determines `g b` from `f a` transports maps
across `Forall₂`. -/
theorem forall2_map_eq {P : α → β → Prop} {f : α → γ} {g : β → γ}
    (hfg : ∀ a b, P a b → g b = f a) :
    ∀ {l : List α} {out : List β}, List.Forall₂ P l out → out.map g = l.map f := by
  intro l out h
  induction h with
  | nil => rfl
  | cons hab _ ih => simp [ih, hfg _ _ hab]

/-- Filtering by an all-true mask keeps every cell. -/
theorem maskFilter_all_some : ∀ (mask col : List (Option String)),
    (∀ m ∈ mask, m.isSome = true) → mask.length = col.length →
    maskFilter mask col = col := by
  intro mask
  induction mask with
  | nil =>
    intro col _ hl
    cases col with
    | nil => rfl
    | cons v vs => cases hl
  | cons m ms ih =>
    intro col hm hl
    cases col with
    | nil => cases hl
    | cons v vs =>
      have hmh : m.isSome = true := hm m (List.mem_cons_self m ms)
      have ihh := ih vs (fun x hx => hm x (List.mem_cons_of_mem m hx)) (Nat.succ.inj hl)
      simp only [maskFilter] at ihh ⊢
      simp [List.zip_cons_cons, hmh, ihh]

/-- Members of the deduplicated field list have a witnessing row. -/
theorem fieldsOf_spec (g : List MDRow) (f : String) (h : f ∈ fieldsOf g) :
    ∃ r ∈ g, r.field_name = some f := by
  unfold fieldsOf at h
  have h2 := mem_of_mem_dedupKF _ _ h
  rcases List.mem_filterMap.mp h2 with ⟨r, hr, hf⟩
  exact ⟨r, hr, hf⟩

/-- The type dict resolves every field that some row declares. -/
theorem typeDictLookup_mem (tt : List MDRow) (f : String)
    (h : ∃ r ∈ tt, r.field_name = some f) :
    ∃ r, typeDictLookup tt f = some r.data_type ∧ r ∈ tt ∧ r.field_name = some f := by
  unfold typeDictLookup
  have h2 : ∃ r ∈ tt.reverse, (r.field_name == some f) = true := by
    rcases h with ⟨r, hr, hf⟩
    exact ⟨r, List.mem_reverse.mpr hr, by simp [hf]⟩
  have h3 : (tt.reverse.find? (fun r => r.field_name == some f)).isSome := by
    rw [List.find?_isSome]
    exact h2
  rcases Option.isSome_iff_exists.mp h3 with ⟨r, hr⟩
  refine ⟨r, by rw [hr]; rfl, List.mem_reverse.mp (List.mem_of_find?_eq_some hr), ?_⟩
  have := List.find?_some hr
  simpa using this

/-- Casting a string-typed column succeeds cell by cell. -/
theorem eMapM_castCell_str (cells : List (Option String)) :
    eMapM (castCell "str") cells = Except.ok (cells.map (fun v => some (v.getD ""))) := by
  induction cells with
  | nil => rfl
  | cons v vs ih => simp [eMapM, castCell, ih]

/-- A column whose field is declared with a string-like type casts
successfully, keeping its label and its cell count. -/
theorem castColumn_str (tt : List MDRow) (p : String × List (Option String))
    (h : ∀ r ∈ tt, ∃ t, r.data_type = some t ∧ t ∈ ["Text", "Species", "Memo", "GUID"])
    (hf : ¬ (["event_id", "data_row_id"] : List String).contains p.1 = true →
      ∃ r ∈ tt, r.field_name = some p.1) :
    ∃ q, castColumn tt p = Except.ok q ∧ q.1 = p.1 ∧ q.2.length = p.2.length := by
  unfold castColumn
  by_cases he : (["event_id", "data_row_id"] : List String).contains p.1 = true
  · rw [if_pos he]
    exact ⟨p, rfl, rfl, rfl⟩
  · rw [if_neg he]
    rcases typeDictLookup_mem tt p.1 (hf he) with ⟨r, hlook, hrm, _⟩
    rcases h r hrm with ⟨t, hdt, hts⟩
    rw [hlook, hdt]
    have hstr : (type_mapping.find? (fun q => q.1 == t)).map Prod.snd = some "str" := by
      simp only [List.mem_cons, List.not_mem_nil, or_false] at hts
      rcases hts with rfl | rfl | rfl | rfl <;> rfl
    simp only [hstr, eMapM_castCell_str]
    exact ⟨(p.1, p.2.map (fun v => some (v.getD ""))), rfl, rfl, by simp⟩

/-- Dropping null-`data_row_id` rows from a pivoted table whose index pairs
are all populated is the identity. -/
theorem tableFilterRows_id (ps : List (Option String × Option String))
    (fcols : List (String × List (Option String)))
    (hsome : ∀ p ∈ ps, p.2.isSome = true)
    (hlen : ∀ q ∈ fcols, q.2.length = ps.length) :
    tableFilterRows (("event_id", ps.map Prod.fst) ::
        ("data_row_id", ps.map Prod.snd) :: fcols) =
      Except.ok (("event_id", ps.map Prod.fst) ::
        ("data_row_id", ps.map Prod.snd) :: fcols) := by
  have hmask : ∀ m ∈ ps.map Prod.snd, m.isSome = true := by
    intro m hm
    rcases List.mem_map.mp hm with ⟨p, hp, hpe⟩
    subst hpe
    exact hsome p hp
  unfold tableFilterRows
  have hfind : (List.find? (fun p => p.1 == "data_row_id")
      (("event_id", ps.map Prod.fst) :: ("data_row_id", ps.map Prod.snd) :: fcols)) =
      some ("data_row_id", ps.map Prod.snd) := rfl
  rw [hfind]
  simp only [Option.map_some']
  congr 1
  simp only [List.map_cons]
  rw [maskFilter_all_some _ _ hmask (by simp),
    maskFilter_all_some _ _ hmask (by simp)]
  congr 1
  have : List.map (fun p => (p.1, maskFilter (List.map Prod.snd ps) p.2)) fcols
      = List.map id fcols := by
    apply List.map_congr_left
    intro q hq
    rw [maskFilter_all_some _ _ hmask (by simp [hlen q hq])]
    rfl
  rw [this, List.map_id]

/-- With a frame name outside every constructor guard the automatic
transforms are the identity: each step's raise is caught by its wrapper. -/
theorem xmlframe_init_id (n : String) (t : PTable)
    (h : roleLike n = false) : xmlframe_init n t = Except.ok t := by
  simp only [roleLike, Bool.or_eq_false_iff] at h
  obtain ⟨⟨⟨⟨h1, h2⟩, h3⟩, h4⟩, h5⟩ := h
  unfold xmlframe_init ctor_create_ids ctor_monitoring_status ctor_attr_name ctor_attr_value
  simp [h1, h2, h3, h4, h5]

/-- One method group is processed into a frame carrying the normalized
method name, the index columns followed by the group's normalized field
columns, and one row per distinct index tuple.  The method name must not
normalize to a frame name acted on by the constructor transforms. -/
theorem processMethodGroup_ok (md : List MDRow) (k : String)
    (hvalid : ∀ r ∈ md, r.data_row_id ≠ none ∧ r.field_name ≠ none ∧
      (∃ t, r.data_type = some t ∧ t ∈ ["Text", "Species", "Memo", "GUID"]))
    (hnd : nodupB ((groupOf md k).map
      (fun r => (r.event_id, r.data_row_id, r.field_name))) = true)
    (hrole : roleLike (normalize_string k) = false) :
    ∃ F, processMethodGroup md [] k = Except.ok F ∧
      F.name = normalize_string k ∧
      F.table.map Prod.fst =
        "event_id" :: "data_row_id" :: (fieldsOf (groupOf md k)).map normalize_string ∧
      tableNRows F.table = (idxPairs (groupOf md k)).length := by
  have hg : ∀ r ∈ groupOf md k, r ∈ md := fun r hr => (List.mem_filter.mp hr).1
  have hpseq : pivotGroupTable (groupOf md k) = Except.ok
      (("event_id", (idxPairs (groupOf md k)).map Prod.fst) ::
       ("data_row_id", (idxPairs (groupOf md k)).map Prod.snd) ::
       (fieldsOf (groupOf md k)).map
         (fun f => (f, (idxPairs (groupOf md k)).map
           (fun p => pivotCell (groupOf md k) p f)))) := by
    unfold pivotGroupTable
    rw [if_pos hnd]
  have hsome : ∀ p ∈ idxPairs (groupOf md k), p.2.isSome = true := by
    intro p hp
    have h2 := mem_of_mem_dedupKF _ _ hp
    rcases List.mem_map.mp h2 with ⟨r, hr, hre⟩
    subst hre
    rw [Option.isSome_iff_ne_none]
    exact (hvalid r (hg r hr)).1
  have hfilt := tableFilterRows_id (idxPairs (groupOf md k))
    ((fieldsOf (groupOf md k)).map
      (fun f => (f, (idxPairs (groupOf md k)).map (fun p => pivotCell (groupOf md k) p f))))
    hsome
    (by
      intro q hq
      rcases List.mem_map.mp hq with ⟨f, _, hfe⟩
      subst hfe
      simp)
  have hcast : ∀ p ∈ (("event_id", (idxPairs (groupOf md k)).map Prod.fst) ::
      ("data_row_id", (idxPairs (groupOf md k)).map Prod.snd) ::
      (fieldsOf (groupOf md k)).map
        (fun f => (f, (idxPairs (groupOf md k)).map
          (fun p => pivotCell (groupOf md k) p f)))),
      ∃ q, castColumn (groupOf md k) p = Except.ok q ∧
        q.1 = p.1 ∧ q.2.length = p.2.length := by
    intro p hp
    rcases List.mem_cons.mp hp with h1 | hp2
    · subst h1
      exact ⟨_, rfl, rfl, rfl⟩
    rcases List.mem_cons.mp hp2 with h2 | hp3
    · subst h2
      exact ⟨_, rfl, rfl, rfl⟩
    rcases List.mem_map.mp hp3 with ⟨f, hfm, hfe⟩
    subst hfe
    apply castColumn_str
    · intro r hr
      exact (hvalid r (hg r hr)).2.2
    · intro _
      exact fieldsOf_spec _ _ hfm
  rcases eMapM_shape (fun (p q : String × List (Option String)) =>
      q.1 = p.1 ∧ q.2.length = p.2.length) _ hcast with ⟨out, hout, hfa⟩
  have hlabels : out.map Prod.fst =
      "event_id" :: "data_row_id" :: fieldsOf (groupOf md k) := by
    have hmap := forall2_map_eq (fun p q h => h.1) hfa
    rw [hmap]
    simp only [List.map_cons, List.map_map]
    congr 2
    have hco : (Prod.fst ∘ fun f => (f, (idxPairs (groupOf md k)).map
        (fun p => pivotCell (groupOf md k) p f))) = id := rfl
    rw [hco, List.map_id]
  have hlens : out.map (fun q => q.2.length) =
      (idxPairs (groupOf md k)).length :: (idxPairs (groupOf md k)).length ::
      ((fieldsOf (groupOf md k)).map
        (fun f => (f, (idxPairs (groupOf md k)).map
          (fun p => pivotCell (groupOf md k) p f)))).map (fun q => q.2.length) := by
    have hmap := forall2_map_eq (fun p q h => h.2) hfa
    rw [hmap]
    simp
  cases hcase : out with
  | nil =>
    rw [hcase] at hlabels
    cases hlabels
  | cons q1 out2 =>
    rw [hcase] at hlabels hlens hout
    simp only [List.map_cons, List.cons.injEq] at hlens
    refine ⟨⟨normalize_string k, clean_col_names (q1 :: out2)⟩, ?_, rfl, ?_, ?_⟩
    · unfold processMethodGroup
      rw [hpseq]
      simp only [List.filter_nil, List.length_nil, gt_iff_lt, Nat.lt_irrefl, if_false]
      rw [hfilt]
      have hinit : ∀ (tb : PTable), xmlframe_init (normalize_string k) tb = Except.ok tb :=
        fun tb => xmlframe_init_id _ tb hrole
      unfold cast_frame
      simp only [hinit, hout]
    · show (clean_col_names (q1 :: out2)).map Prod.fst = _
      unfold clean_col_names
      rw [List.map_map]
      have h1 : (Prod.fst ∘ fun p : String × List (Option String) =>
          (normalize_string p.1, p.2)) = (normalize_string ∘ Prod.fst) := rfl
      rw [h1, ← List.map_map, hlabels]
      have e1 : normalize_string "event_id" = "event_id" := by decide
      have e2 : normalize_string "data_row_id" = "data_row_id" := by decide
      simp [e1, e2]
    · show tableNRows (clean_col_names (q1 :: out2)) = _
      unfold clean_col_names tableNRows
      simp only [List.map_cons]
      exact hlens.1
/-! ## C7 -/

/-- C7 counterexample: the claim as stated fails when a method's name
normalizes to a frame name the `XMLFrame` constructor acts on.  Two methods
with populated ids, disjoint field names, string-like declared types and no
duplicate (index, field) pairs — but the first named `Monitoring Status`,
whose normalized name is `monitoring_status` — produce no output frames:
the constructor's `_create_monitoring_status` adds the four derived status
columns to the pivoted table and `_cast_frame` then raises `KeyError`
looking the derived columns up in the field-type dict. -/
theorem c7_counterexample :
    pivot_data
        [⟨some "r1", some "e1", some "Monitoring Status", some "f1", some "v1", some "Text"⟩,
         ⟨some "r2", some "e1", some "B", some "f2", some "v2", some "Text"⟩] =
      Except.error "monitoring_status frame is the wrong format to be cast." := by
  rfl

/-- C7 (amended): grouped-mode pivoting of a `method_data` frame holding
exactly two methods with disjoint attribute names produces exactly two
output frames, each named by its normalized method name, each containing
only the index columns followed by its own method's (normalized) attribute
columns, and each with one row per distinct index tuple of its method.  The
well-formedness hypotheses state that every row has a populated
`data_row_id` and `field_name` and a string-like declared type (so the type
casts are total), that no (index, field) pair repeats within a method
(pandas `pivot` raises on duplicates), and that neither method name
normalizes to a frame name acted on by the `XMLFrame` constructor's
automatic transforms (those add or rename columns that the subsequent cast
cannot resolve). -/
theorem c7_grouped_pivot_two_methods
    (rows : List MDRow) (m1 m2 : String)
    (hvalid : ∀ r ∈ rows, r.data_row_id ≠ none ∧ r.field_name ≠ none ∧
      r.data_type ∈ [some "Text", some "Species", some "Memo", some "GUID"])
    (hkeys : methodKeys rows = [m1, m2])
    (hdisj : ∀ f ∈ fieldsOf (groupOf rows m1), f ∉ fieldsOf (groupOf rows m2))
    (hnd1 : nodupB ((groupOf rows m1).map
      (fun r => (r.event_id, r.data_row_id, r.field_name))) = true)
    (hnd2 : nodupB ((groupOf rows m2).map
      (fun r => (r.event_id, r.data_row_id, r.field_name))) = true)
    (hrole1 : roleLike (normalize_string m1) = false)
    (hrole2 : roleLike (normalize_string m2) = false) :
    ∃ F1 F2, pivot_data rows = Except.ok [F1, F2] ∧
      F1.name = normalize_string m1 ∧ F2.name = normalize_string m2 ∧
      F1.table.map Prod.fst =
        "event_id" :: "data_row_id" :: (fieldsOf (groupOf rows m1)).map normalize_string ∧
      F2.table.map Prod.fst =
        "event_id" :: "data_row_id" :: (fieldsOf (groupOf rows m2)).map normalize_string ∧
      tableNRows F1.table = (idxPairs (groupOf rows m1)).length ∧
      tableNRows F2.table = (idxPairs (groupOf rows m2)).length := by
  have hvalid2 : ∀ r ∈ rows, r.data_row_id ≠ none ∧ r.field_name ≠ none ∧
      (∃ t, r.data_type = some t ∧ t ∈ ["Text", "Species", "Memo", "GUID"]) := by
    intro r hr
    rcases hvalid r hr with ⟨h1, h2, h3⟩
    refine ⟨h1, h2, ?_⟩
    simp only [List.mem_cons, List.not_mem_nil, or_false] at h3
    rcases h3 with h | h | h | h <;> exact ⟨_, h, by decide⟩
  have hfilter : rows.filter (fun r => !r.data_row_id.isNone) = rows := by
    apply List.filter_eq_self.mpr
    intro r hr
    have h1 := (hvalid r hr).1
    cases hdr : r.data_row_id with
    | none => exact absurd hdr h1
    | some v => simp [hdr]
  have hnullf : rows.filter (fun r => r.data_row_id.isNone) = [] := by
    rw [List.filter_eq_nil_iff]
    intro r hr
    have h1 := (hvalid r hr).1
    cases hdr : r.data_row_id with
    | none => exact absurd hdr h1
    | some v => simp [hdr]
  rcases processMethodGroup_ok rows m1 hvalid2 hnd1 hrole1 with ⟨F1, h1, hn1, hc1, hr1⟩
  rcases processMethodGroup_ok rows m2 hvalid2 hnd2 hrole2 with ⟨F2, h2, hn2, hc2, hr2⟩
  refine ⟨F1, F2, ?_, hn1, hn2, hc1, hc2, hr1, hr2⟩
  simp only [pivot_data]
  rw [hfilter, hnullf, hkeys]
  simp only [eMapM, h1, h2]

/-- C7 witness: two methods `A` and `B` with disjoint fields over one event
produce the frames `a` and `b` with their own columns and one row each. -/
theorem c7_witness :
    ∃ F1 F2, pivot_data
        [⟨some "r1", some "e1", some "A", some "f1", some "v1", some "Text"⟩,
         ⟨some "r2", some "e1", some "B", some "f2", some "v2", some "Species"⟩,
         ⟨some "r1", some "e1", some "A", some "f3", some "v3", some "Memo"⟩] =
      Except.ok [F1, F2] ∧
      F1.name = normalize_string "A" ∧ F2.name = normalize_string "B" ∧
      F1.table.map Prod.fst = "event_id" :: "data_row_id" ::
        (fieldsOf (groupOf
          [⟨some "r1", some "e1", some "A", some "f1", some "v1", some "Text"⟩,
           ⟨some "r2", some "e1", some "B", some "f2", some "v2", some "Species"⟩,
           ⟨some "r1", some "e1", some "A", some "f3", some "v3", some "Memo"⟩] "A")).map
          normalize_string ∧
      F2.table.map Prod.fst = "event_id" :: "data_row_id" ::
        (fieldsOf (groupOf
          [⟨some "r1", some "e1", some "A", some "f1", some "v1", some "Text"⟩,
           ⟨some "r2", some "e1", some "B", some "f2", some "v2", some "Species"⟩,
           ⟨some "r1", some "e1", some "A", some "f3", some "v3", some "Memo"⟩] "B")).map
          normalize_string ∧
      tableNRows F1.table = (idxPairs (groupOf
        [⟨some "r1", some "e1", some "A", some "f1", some "v1", some "Text"⟩,
         ⟨some "r2", some "e1", some "B", some "f2", some "v2", some "Species"⟩,
         ⟨some "r1", some "e1", some "A", some "f3", some "v3", some "Memo"⟩] "A")).length ∧
      tableNRows F2.table = (idxPairs (groupOf
        [⟨some "r1", some "e1", some "A", some "f1", some "v1", some "Text"⟩,
         ⟨some "r2", some "e1", some "B", some "f2", some "v2", some "Species"⟩,
         ⟨some "r1", some "e1", some "A", some "f3", some "v3", some "Memo"⟩] "B")).length :=
  c7_grouped_pivot_two_methods _ "A" "B" (by decide) (by decide) (by decide)
    (by decide) (by decide) (by decide) (by decide)

/-! ## C9: character-level lemmas -/

/-- ASCII form of `Char.isUpper`. -/
theorem char_isUpper_iff (c : Char) :
    c.isUpper = (decide (65 ≤ c.toNat) && decide (c.toNat ≤ 90)) := by
  simp [Char.isUpper, UInt32.le_def, BitVec.le_def, Char.toNat, UInt32.toNat]

/-- ASCII form of `Char.isLower`. -/
theorem char_isLower_iff (c : Char) :
    c.isLower = (decide (97 ≤ c.toNat) && decide (c.toNat ≤ 122)) := by
  simp [Char.isLower, UInt32.le_def, BitVec.le_def, Char.toNat, UInt32.toNat]

/-- ASCII form of `Char.isDigit`. -/
theorem char_isDigit_iff (c : Char) :
    c.isDigit = (decide (48 ≤ c.toNat) && decide (c.toNat ≤ 57)) := by
  simp [Char.isDigit, UInt32.le_def, BitVec.le_def, Char.toNat, UInt32.toNat]

/-- Valid code points round-trip through `Char.ofNat`. -/
theorem char_ofNat_toNat (n : Nat) (h1 : 97 ≤ n) (h2 : n ≤ 122) :
    (Char.ofNat n).toNat = n := by
  unfold Char.ofNat
  rw [dif_pos (by left; omega)]
  simp [Char.ofNatAux, Char.toNat, UInt32.toNat]

/-- Lowercasing a non-uppercase character is the identity. -/
theorem char_toLower_eq_self {c : Char} (h : c.isUpper = false) : c.toLower = c := by
  have h2 : ¬ (c.toNat ≥ 65 ∧ c.toNat ≤ 90) := by
    rw [char_isUpper_iff] at h
    intro hcon
    rw [decide_eq_true hcon.1, decide_eq_true hcon.2] at h
    simp at h
  simp only [Char.toLower]
  rw [if_neg h2]

/-- A lowercased character is never uppercase. -/
theorem char_isUpper_toLower (c : Char) : (Char.toLower c).isUpper = false := by
  by_cases h : c.isUpper = true
  · rw [char_isUpper_iff] at h
    simp only [Bool.and_eq_true, decide_eq_true_eq] at h
    simp only [Char.toLower]
    rw [if_pos (by omega)]
    rw [char_isUpper_iff, char_ofNat_toNat (c.toNat + 32) (by omega) (by omega)]
    have hng : ¬ (c.toNat + 32 ≤ 90) := by omega
    simp [hng]
  · have h2 : c.isUpper = false := by
      revert h
      cases c.isUpper <;> simp
    rw [char_toLower_eq_self h2]
    exact h2

/-- Lowercasing is idempotent. -/
theorem char_toLower_idem (c : Char) : (Char.toLower c).toLower = Char.toLower c :=
  char_toLower_eq_self (char_isUpper_toLower c)

/-- Lowercasing cannot produce a character with code point below 65 that the
input was not already. -/
theorem char_toLower_ne_low {c d : Char} (hd : d.toNat < 65) (h : c ≠ d) :
    Char.toLower c ≠ d := by
  intro he
  by_cases hu : c.toNat ≥ 65 ∧ c.toNat ≤ 90
  · have ht : (Char.toLower c).toNat = c.toNat + 32 := by
      simp only [Char.toLower]
      rw [if_pos hu]
      exact char_ofNat_toNat _ (by omega) (by omega)
    rw [he] at ht
    omega
  · have hid : Char.toLower c = c := by
      simp only [Char.toLower]
      rw [if_neg hu]
    rw [hid] at he
    exact h he

/-- The facts about a character of an already-clean name. -/
theorem cleanChar_facts {c : Char} (h : cleanChar c = true) :
    c.isUpper = false ∧ c ≠ ' ' ∧ c ≠ '.' ∧ c ≠ '-' ∧ c ≠ '(' := by
  unfold cleanChar at h
  rcases Bool.or_eq_true_iff.mp h with h1 | h2
  · rcases Bool.or_eq_true_iff.mp h1 with h3 | h4
    · rw [char_isLower_iff] at h3
      simp only [Bool.and_eq_true, decide_eq_true_eq] at h3
      refine ⟨?_, ?_, ?_, ?_, ?_⟩
      · rw [char_isUpper_iff]
        have hng : ¬ (c.toNat ≤ 90) := by omega
        simp [hng]
      all_goals (intro he; subst he; revert h3; decide)
    · rw [char_isDigit_iff] at h4
      simp only [Bool.and_eq_true, decide_eq_true_eq] at h4
      refine ⟨?_, ?_, ?_, ?_, ?_⟩
      · rw [char_isUpper_iff]
        have hng : ¬ (65 ≤ c.toNat) := by omega
        simp [hng]
      all_goals (intro he; subst he; revert h4; decide)
  · have h3 : c = '_' := by simpa using h2
    subst h3
    refine ⟨by decide, by decide, by decide, by decide, by decide⟩

/-! ## C2 -/

/-- A required record type with zero elements makes the ingestion `mapM`
fail with the empty-concatenation error. -/
theorem mapM_parse_error (doc : String → List ElemRow) (t : String) (hz : doc t = []) :
    ∀ l : List String, t ∈ l →
      eMapM (fun u => if (doc u).isEmpty then
          (Except.error "No objects to concatenate" : Except String (String × List ElemRow))
        else Except.ok (u, doc u)) l = Except.error "No objects to concatenate" := by
  intro l hl
  induction l with
  | nil => cases hl
  | cons a l ih =>
    by_cases ha : (doc a).isEmpty
    · simp [eMapM, ha]
    · have hta : t ∈ l := by
        rcases List.mem_cons.mp hl with h1 | h2
        · exact absurd (h1 ▸ hz) (by simpa using ha)
        · exact h2
      simp only [eMapM]
      rw [if_neg ha]
      simp only [ih hta]

/-- C2 counterexample: a document whose `LocalSpecies` record type has zero
elements is fatal at parse time (`pandas.concat` of an empty list raises
`ValueError`), so no present-but-empty Record-Type Table is produced. -/
theorem c2_counterexample :
    parse_data (fun t => if t == "LocalSpecies" then [] else [[("A", some "x")]]) =
      Except.error "No objects to concatenate" ∧
    ∀ tbs, parse_data (fun t => if t == "LocalSpecies" then [] else [[("A", some "x")]]) ≠
      Except.ok tbs := by
  have h1 : parse_data (fun t => if t == "LocalSpecies" then [] else [[("A", some "x")]]) =
      Except.error "No objects to concatenate" := by rfl
  refine ⟨h1, ?_⟩
  intro tbs h
  rw [h1] at h
  cases h

/-- C2 amended: if zero elements of a required record type exist, ingestion
fails rather than producing a present-but-empty table: the newer parser
aborts with the empty-concatenation error, and the earlier revision leaves
the type out of `tables`, so indexing it raises `KeyError`. -/
theorem c2_zero_elements_is_fatal
    (doc : String → List ElemRow) (t : String)
    (ht : t ∈ neededTables) (hz : doc t = []) :
    parse_data doc = Except.error "No objects to concatenate" ∧
    (∀ (tables : List String) (dmap : String → List ElemRow) (item : String),
       tables.contains item = false →
       ffifile_getitem tables dmap item =
         Except.error (item ++ " not in FFI XML file.")) := by
  constructor
  · unfold parse_data
    exact mapM_parse_error doc t hz neededTables ht
  · intro tables dmap item hni
    unfold ffifile_getitem
    rw [if_neg (by simpa using hni)]

/-- C2 witness: a document with zero `Method` elements fails to parse, and
indexing the absent type in the earlier revision raises its `KeyError`. -/
theorem c2_witness :
    parse_data (fun t => if t == "Method" then [] else [[("B", none)]]) =
      Except.error "No objects to concatenate" ∧
    ffifile_getitem ["MacroPlot"] (fun _ => [[("B", none)]]) "Method" =
      Except.error ("Method" ++ " not in FFI XML file.") :=
  ⟨(c2_zero_elements_is_fatal (fun t => if t == "Method" then [] else [[("B", none)]])
      "Method" (by decide) (by rfl)).1,
   (c2_zero_elements_is_fatal (fun t => if t == "Method" then [] else [[("B", none)]])
      "Method" (by decide) (by rfl)).2 ["MacroPlot"] (fun _ => [[("B", none)]]) "Method"
      (by decide)⟩

/-! ## C4 -/

/-- C4: a frame named `plot` derives its synthetic key as the uppercased
five-character admin-unit fragment joined to the alphanumeric-only
uppercased plot-name fragment with no date component (the key is invariant
under any change of the `MacroPlot_DateIn` value), while a frame named
`sampling_event` appends the day-granularity ordinal of
`SampleEvent_Date`. -/
theorem c4_plot_key_no_date_event_key_has_date
    (row : PyRow) (dv nv av ev nd dv2 : String)
    (hd : row "MacroPlot_DateIn" = some dv)
    (hn : row "MacroPlot_Name" = some nv)
    (ha : row "RegistrationUnit_Name" = some av)
    (he : row "SampleEvent_Date" = some ev)
    (hnd : to_datenum ev = some nd) :
    create_ids "plot" row =
      Except.ok ("PlotID", stripSeps (pyUpper (pyTake 5 av)) ++ "-" ++
        stripSeps (pyUpper (String.join (findallWords nv)))) ∧
    create_ids "plot" (updateRow row "MacroPlot_DateIn" (some dv2)) =
      create_ids "plot" row ∧
    create_ids "sampling_event" row =
      Except.ok ("EventID", stripSeps (pyUpper (pyTake 5 av)) ++ "-" ++
        stripSeps (pyUpper (String.join (findallWords nv))) ++ "-" ++ nd) := by
  have hu1 : updateRow row "MacroPlot_DateIn" (some dv2) "MacroPlot_DateIn" = some dv2 := by
    simp [updateRow]
  have hu2 : updateRow row "MacroPlot_DateIn" (some dv2) "MacroPlot_Name" = some nv := by
    simp [updateRow, hn]
  have hu3 : updateRow row "MacroPlot_DateIn" (some dv2) "RegistrationUnit_Name" = some av := by
    simp [updateRow, ha]
  refine ⟨?_, ?_, ?_⟩
  · simp [create_ids, id_str, eMapM, Except.map, hd, hn, ha]
  · simp [create_ids, id_str, eMapM, Except.map, hd, hn, ha, hu1, hu2, hu3]
  · simp [create_ids, id_str, eMapM, Except.map, he, hn, ha, hnd]

/-- C4 witness: concrete plot and event keys from a row with admin unit
`Carson NF`, plot `p 1` and dates in January 1900. -/
theorem c4_witness :
    create_ids "plot"
        (fun c => if c = "MacroPlot_DateIn" then some "1900-01-05"
          else if c = "MacroPlot_Name" then some "p 1"
          else if c = "RegistrationUnit_Name" then some "Carson NF"
          else if c = "SampleEvent_Date" then some "1900-01-11" else none) =
      Except.ok ("PlotID", "CARSO-P1") ∧
    create_ids "plot"
        (updateRow
          (fun c => if c = "MacroPlot_DateIn" then some "1900-01-05"
            else if c = "MacroPlot_Name" then some "p 1"
            else if c = "RegistrationUnit_Name" then some "Carson NF"
            else if c = "SampleEvent_Date" then some "1900-01-11" else none)
          "MacroPlot_DateIn" (some "not a date at all")) =
      create_ids "plot"
        (fun c => if c = "MacroPlot_DateIn" then some "1900-01-05"
          else if c = "MacroPlot_Name" then some "p 1"
          else if c = "RegistrationUnit_Name" then some "Carson NF"
          else if c = "SampleEvent_Date" then some "1900-01-11" else none) ∧
    create_ids "sampling_event"
        (fun c => if c = "MacroPlot_DateIn" then some "1900-01-05"
          else if c = "MacroPlot_Name" then some "p 1"
          else if c = "RegistrationUnit_Name" then some "Carson NF"
          else if c = "SampleEvent_Date" then some "1900-01-11" else none) =
      Except.ok ("EventID", "CARSO-P1-11") :=
  c4_plot_key_no_date_event_key_has_date _ "1900-01-05" "p 1" "Carson NF" "1900-01-11" "11"
    "not a date at all" rfl rfl rfl rfl (by rfl)

/-! ## C6 and C10: projection lemmas -/

/-- `find?` by label commutes with a label-preserving map. -/
theorem find?_label_map (g : (String × (Nat → Option String)) → (String × (Nat → Option String)))
    (hg : ∀ p, (g p).1 = p.1) (l : List (String × (Nat → Option String))) (c : String) :
    List.find? (fun p => p.1 == c) (l.map g) =
      Option.map g (List.find? (fun p => p.1 == c) l) := by
  induction l with
  | nil => rfl
  | cons p l ih =>
    by_cases hc : (p.1 == c) = true
    · simp [hg p, hc]
    · simp only [Bool.not_eq_true] at hc
      simp [hg p, hc, ih]

/-- Setting a column to null makes its lookup the null column. -/
theorem getCol_setNullCol_same (df : Df) (c : String) :
    (setNullCol df c).getCol c = some nullCol := by
  unfold setNullCol
  by_cases hc : df.colNames.contains c
  · rw [if_pos hc]
    unfold Df.getCol
    rw [find?_label_map _ (fun p => by by_cases h : p.1 = c <;> simp [h]) _ c]
    have hs : ∃ p ∈ df.columns, p.1 = c := by
      have := hc
      unfold Df.colNames at this
      simpa using this
    rcases hs with ⟨q, hq, hqc⟩
    have hf : (List.find? (fun p => p.1 == c) df.columns).isSome := by
      rw [List.find?_isSome]
      exact ⟨q, hq, by simp [hqc]⟩
    rcases Option.isSome_iff_exists.mp hf with ⟨r, hr⟩
    have hrc : r.1 = c := by
      have := List.find?_some hr
      simpa using this
    rw [hr]
    simp [hrc]
  · rw [if_neg hc]
    unfold Df.getCol
    have hn : List.find? (fun p => p.1 == c) df.columns = none := by
      rw [List.find?_eq_none]
      intro p hp
      simp only [beq_iff_eq]
      intro hpc
      apply hc
      unfold Df.colNames
      simpa using List.mem_map.mpr ⟨p, hp, hpc⟩
    rw [List.find?_append, hn]
    simp

/-- Setting some other column preserves an existing null column. -/
theorem getCol_setNullCol_preserve (df : Df) (a c : String)
    (h : df.getCol c = some nullCol) :
    (setNullCol df a).getCol c = some nullCol := by
  unfold setNullCol
  unfold Df.getCol at h
  rcases Option.map_eq_some'.mp h with ⟨q, hq, hq2⟩
  have hqc : q.1 = c := by simpa using List.find?_some hq
  by_cases ha : df.colNames.contains a
  · rw [if_pos ha]
    unfold Df.getCol
    rw [find?_label_map _ (fun p => by by_cases hh : p.1 = a <;> simp [hh]) _ c, hq]
    by_cases hca : q.1 = a
    · simp [hca, hq2]
    · simp [hca, hq2]
  · rw [if_neg ha]
    unfold Df.getCol
    rw [List.find?_append, hq]
    simp [hq2]

/-- A null column survives a fold of null-column assignments. -/
theorem getCol_foldl_preserve (L : List String) :
    ∀ (df : Df) (c : String), df.getCol c = some nullCol →
      (L.foldl setNullCol df).getCol c = some nullCol := by
  induction L with
  | nil => intro df c h; exact h
  | cons a L ih =>
    intro df c h
    exact ih _ _ (getCol_setNullCol_preserve df a c h)

/-- After folding null-column assignments over `L`, every name in `L` looks
up the null column. -/
theorem getCol_foldl_mem (L : List String) :
    ∀ (df : Df) (c : String), c ∈ L →
      (L.foldl setNullCol df).getCol c = some nullCol := by
  induction L with
  | nil => intro df c h; cases h
  | cons a L ih =>
    intro df c h
    rcases List.mem_cons.mp h with h1 | h2
    · subst h1
      exact getCol_foldl_preserve L _ _ (getCol_setNullCol_same df c)
    · exact ih _ _ h2

/-! ## C6 -/

/-- C6: for every frame and projection request, each requested column absent
from the source becomes an all-null column of the result at its requested
position (under its renamed label for a mapping request), the result has one
column per requested name and the same row count as the source, and the
projection is total. -/
theorem c6_projection_defaults_missing_to_null (df : Df) (arg : ColsArg) :
    (getItem df arg).2.nrows = df.nrows ∧
    (getItem df arg).2.columns.length = arg.keys.length ∧
    (∀ (k : Nat) (c : String), arg.keys[k]? = some c → df.colNames.contains c = false →
      (getItem df arg).2.columns[k]? = some (arg.outName c, nullCol)) := by
  refine ⟨?_, ?_, ?_⟩
  · unfold getItem
    cases arg <;> rfl
  · unfold getItem
    cases arg <;> simp [ColsArg.keys]
  · intro k c hk hc
    have hmem : c ∈ arg.keys := List.getElem?_mem hk
    have hnall : ¬ (arg.keys.all fun c => df.colNames.contains c) = true := by
      intro hall
      have := List.all_eq_true.mp hall c hmem
      rw [hc] at this
      cases this
    have hfold : (List.foldl setNullCol df
        (List.filter (fun c => !df.colNames.contains c) arg.keys)).getCol c = some nullCol := by
      apply getCol_foldl_mem
      rw [List.mem_filter]
      exact ⟨hmem, by simpa using hc⟩
    cases arg with
    | colList l =>
      simp only [ColsArg.keys] at hk hnall hfold
      simp only [getItem, ColsArg.keys]
      rw [List.getElem?_map, hk, if_neg hnall]
      simp only [Option.map_some']
      rw [hfold]
      rfl
    | colDict m =>
      simp only [ColsArg.keys] at hk hnall hfold
      simp only [getItem, ColsArg.keys]
      rw [List.getElem?_map, List.getElem?_map, hk, if_neg hnall]
      simp only [Option.map_some']
      rw [hfold]
      rfl

/-! ## C10 -/

/-- Folding null-column assignments over names absent from the base appends
exactly those names as null columns, leaving the base columns untouched. -/
theorem foldl_setNullCol_append (L : List String) :
    ∀ (base : Df) (added : List (String × (Nat → Option String))),
      (∀ c ∈ L, base.colNames.contains c = false) →
      (∀ p ∈ added, p.2 = nullCol) →
      ∃ added2,
        (L.foldl setNullCol ⟨base.nrows, base.columns ++ added⟩).columns
          = base.columns ++ added2 ∧
        (∀ p ∈ added2, p.2 = nullCol) ∧
        (∀ c, (∃ fn, (c, fn) ∈ added2) ↔ ((∃ fn, (c, fn) ∈ added) ∨ c ∈ L)) ∧
        (L.foldl setNullCol ⟨base.nrows, base.columns ++ added⟩).nrows = base.nrows := by
  induction L with
  | nil =>
    intro base added h1 h2
    exact ⟨added, rfl, h2, fun c => by simp, rfl⟩
  | cons a L ih =>
    intro base added h1 h2
    have hna : a ∉ base.columns.map Prod.fst := by
      have := h1 a (List.mem_cons_self a L)
      unfold Df.colNames at this
      simpa using this
    have hbase_a : ∀ p ∈ base.columns, p.1 ≠ a := by
      intro p hp hpa
      exact hna (List.mem_map.mpr ⟨p, hp, hpa⟩)
    by_cases hmem : a ∈ added.map Prod.fst
    · have hcont : (Df.colNames ⟨base.nrows, base.columns ++ added⟩).contains a = true := by
        unfold Df.colNames
        simp only [List.map_append]
        have : a ∈ base.columns.map Prod.fst ++ added.map Prod.fst :=
          List.mem_append.mpr (Or.inr hmem)
        simpa using this
      have hstep : setNullCol ⟨base.nrows, base.columns ++ added⟩ a =
          ⟨base.nrows, base.columns ++ added⟩ := by
        unfold setNullCol
        rw [if_pos hcont]
        simp only [Df.mk.injEq, true_and]
        rw [List.map_append]
        congr 1
        · have hmc : List.map (fun p => if p.1 = a then (p.1, nullCol) else p) base.columns
              = List.map id base.columns := by
            apply List.map_congr_left
            intro p hp
            rw [if_neg (hbase_a p hp)]
            rfl
          rw [hmc, List.map_id]
        · have hmc : List.map (fun p => if p.1 = a then (p.1, nullCol) else p) added
              = List.map id added := by
            apply List.map_congr_left
            intro p hp
            by_cases hpa : p.1 = a
            · rw [if_pos hpa]
              have h2p : p.2 = nullCol := h2 p hp
              cases p
              simp_all
            · rw [if_neg hpa]
              rfl
          rw [hmc, List.map_id]
      rw [List.foldl_cons, hstep]
      rcases ih base added (fun c hc => h1 c (List.mem_cons_of_mem a hc)) h2 with
        ⟨added2, hcols, hnull, hiff, hn⟩
      refine ⟨added2, hcols, hnull, ?_, hn⟩
      intro c
      rw [hiff c]
      constructor
      · rintro (h | h)
        · exact Or.inl h
        · exact Or.inr (List.mem_cons_of_mem a h)
      · rintro (h | h)
        · exact Or.inl h
        · rcases List.mem_cons.mp h with h3 | h4
          · subst h3
            rcases List.mem_map.mp hmem with ⟨⟨p1, p2⟩, hp, hpa⟩
            simp only at hpa
            refine Or.inl ⟨p2, ?_⟩
            subst hpa
            exact hp
          · exact Or.inr h4
    · have hcont : (Df.colNames ⟨base.nrows, base.columns ++ added⟩).contains a = false := by
        unfold Df.colNames
        simp only [List.map_append]
        have h1a := h1 a (List.mem_cons_self a L)
        unfold Df.colNames at h1a
        have hnb : a ∉ base.columns.map Prod.fst := by simpa using h1a
        have : a ∉ base.columns.map Prod.fst ++ added.map Prod.fst := by
          rw [List.mem_append]
          rintro (h | h)
          · exact hnb h
          · exact hmem h
        simpa using this
      have hstep : setNullCol ⟨base.nrows, base.columns ++ added⟩ a =
          ⟨base.nrows, base.columns ++ (added ++ [(a, nullCol)])⟩ := by
        unfold setNullCol
        unfold Df.colNames
        unfold Df.colNames at hcont
        rw [if_neg (by rw [hcont]; intro h; cases h)]
        simp [List.append_assoc]
      rw [List.foldl_cons, hstep]
      have h2a : ∀ p ∈ added ++ [(a, nullCol)], p.2 = nullCol := by
        intro p hp
        rcases List.mem_append.mp hp with h | h
        · exact h2 p h
        · rcases List.mem_singleton.mp h with rfl
          rfl
      rcases ih base (added ++ [(a, nullCol)])
        (fun c hc => h1 c (List.mem_cons_of_mem a hc)) h2a with
        ⟨added2, hcols, hnull, hiff, hn⟩
      refine ⟨added2, hcols, hnull, ?_, hn⟩
      intro c
      rw [hiff c]
      constructor
      · rintro (⟨fn, h⟩ | h)
        · rcases List.mem_append.mp h with h3 | h3
          · exact Or.inl ⟨fn, h3⟩
          · rcases List.mem_singleton.mp h3 with h4
            have : c = a := congrArg Prod.fst h4
            subst this
            exact Or.inr (List.mem_cons_self c L)
        · exact Or.inr (List.mem_cons_of_mem a h)
      · rintro (⟨fn, h⟩ | h)
        · exact Or.inl ⟨fn, List.mem_append.mpr (Or.inl h)⟩
        · rcases List.mem_cons.mp h with h3 | h4
          · subst h3
            exact Or.inl ⟨nullCol, List.mem_append.mpr (Or.inr (List.mem_singleton.mpr rfl))⟩
          · exact Or.inr h4

/-- C10: projection mutates its receiver: requested columns absent from the
source are appended to the source frame itself as all-null columns (exactly
the missing requested names and nothing else), while a projection whose
requested columns all exist leaves the source frame unchanged. -/
theorem c10_projection_mutates_source_frame (df : Df) (arg : ColsArg) :
    ((∀ c ∈ arg.keys, df.colNames.contains c = true) → (getItem df arg).1 = df) ∧
    (getItem df arg).1.nrows = df.nrows ∧
    (∃ added, (getItem df arg).1.columns = df.columns ++ added ∧
      (∀ p ∈ added, p.2 = nullCol) ∧
      (∀ c, (∃ fn, (c, fn) ∈ added) ↔ (c ∈ arg.keys ∧ df.colNames.contains c = false))) := by
  by_cases hall : (arg.keys.all fun c => df.colNames.contains c) = true
  · have h1 : (getItem df arg).1 = df := by
      simp only [getItem]
      rw [if_pos hall]
    refine ⟨fun _ => h1, by rw [h1], [], by rw [h1, List.append_nil], by simp, ?_⟩
    intro c
    simp only [List.not_mem_nil]
    constructor
    · rintro ⟨fn, h⟩
      cases h
    · rintro ⟨hk, hc⟩
      have := List.all_eq_true.mp hall c hk
      rw [hc] at this
      cases this
  · have hpre : ∀ c ∈ List.filter (fun c => !df.colNames.contains c) arg.keys,
        df.colNames.contains c = false := by
      intro c hc
      have := (List.mem_filter.mp hc).2
      simpa using this
    have hdf : (⟨df.nrows, df.columns ++ []⟩ : Df) = df := by
      rw [List.append_nil]
    rcases foldl_setNullCol_append _ df [] hpre (by intro p hp; cases hp) with
      ⟨added2, hcols, hnull, hiff, hn⟩
    rw [hdf] at hcols hn
    have hfst : (getItem df arg).1 =
        (List.filter (fun c => !df.colNames.contains c) arg.keys).foldl setNullCol df := by
      simp only [getItem]
      rw [if_neg hall]
    constructor
    · intro hakk
      exfalso
      apply hall
      rw [List.all_eq_true]
      intro c hc
      simpa using hakk c hc
    refine ⟨by rw [hfst, hn], added2, by rw [hfst, hcols], hnull, ?_⟩
    intro c
    rw [hiff c]
    simp only [List.not_mem_nil, false_and, exists_false, false_or]
    rw [List.mem_filter]
    constructor
    · rintro ⟨hk, hc⟩
      exact ⟨hk, by simpa using hc⟩
    · rintro ⟨hk, hc⟩
      exact ⟨hk, by simpa using hc⟩

/-- C10 witness: requesting the existing `a` leaves the source unchanged,
and requesting a missing `b` appends exactly one null column to it. -/
theorem c10_witness :
    (getItem ⟨2, [("a", nullCol)]⟩ (ColsArg.colList ["a"])).1 = ⟨2, [("a", nullCol)]⟩ ∧
    (∃ added, (getItem ⟨2, [("a", nullCol)]⟩ (ColsArg.colList ["a", "b"])).1.columns
        = [("a", nullCol)] ++ added ∧
      (∀ p ∈ added, p.2 = nullCol) ∧
      (∀ c, (∃ fn, (c, fn) ∈ added) ↔
        (c ∈ ["a", "b"] ∧ (Df.colNames ⟨2, [("a", nullCol)]⟩).contains c = false))) :=
  ⟨(c10_projection_mutates_source_frame ⟨2, [("a", nullCol)]⟩ (ColsArg.colList ["a"])).1
      (by decide),
   (c10_projection_mutates_source_frame ⟨2, [("a", nullCol)]⟩
      (ColsArg.colList ["a", "b"])).2.2⟩

/-- C6 witness: requesting `["a", "b"]` from a single-column frame with two
rows yields a null column labelled `b` at position 1. -/
theorem c6_witness :
    (getItem ⟨2, [("a", fun i => some (toString i))]⟩ (ColsArg.colList ["a", "b"])).2.nrows = 2 ∧
    (getItem ⟨2, [("a", fun i => some (toString i))]⟩
        (ColsArg.colList ["a", "b"])).2.columns.length = 2 ∧
    (getItem ⟨2, [("a", fun i => some (toString i))]⟩
        (ColsArg.colList ["a", "b"])).2.columns[1]? = some ("b", nullCol) :=
  ⟨(c6_projection_defaults_missing_to_null _ _).1,
   (c6_projection_defaults_missing_to_null _ _).2.1,
   (c6_projection_defaults_missing_to_null _ _).2.2 1 "b" rfl rfl⟩

/-! ## C9: cleaning-pipeline lemmas -/

/-- Strings round-trip through their character lists. -/
theorem string_mk_toList (u : String) : String.mk u.toList = u := by
  cases u
  rfl

/-- Without an opening parenthesis the substitution is the identity. -/
theorem subParenF_no_paren : ∀ (fuel : Nat) (l : List Char), '(' ∉ l →
    subParenF fuel l = l := by
  intro fuel
  induction fuel with
  | zero =>
    intro l h
    cases l <;> rfl
  | succ fuel ih =>
    intro l h
    cases l with
    | nil => rfl
    | cons c rest =>
      have hc : ¬ (c == '(') = true := by
        simp only [beq_iff_eq]
        intro hcc
        exact h (hcc ▸ List.mem_cons_self c rest)
      simp only [subParenF]
      rw [if_neg hc, ih rest (fun hr => h (List.mem_cons_of_mem c hr))]

/-- Without a parenthesized word group the substitution is the identity. -/
theorem subParenF_no_group : ∀ (fuel : Nat) (l : List Char),
    hasParenGroupF fuel l = false → subParenF fuel l = l := by
  intro fuel
  induction fuel with
  | zero =>
    intro l h
    cases l <;> rfl
  | succ fuel ih =>
    intro l h
    cases l with
    | nil => rfl
    | cons c rest =>
      simp only [subParenF, hasParenGroupF] at h ⊢
      by_cases hc : (c == '(') = true
      · rw [if_pos hc] at h ⊢
        by_cases hm : parenMatchAt rest = true
        · rw [if_pos hm] at h
          cases h
        · rw [if_neg hm] at h ⊢
          rw [ih rest h]
      · rw [if_neg hc] at h ⊢
        rw [ih rest h]

/-- The substitution only keeps characters of its input. -/
theorem mem_of_mem_subParenF : ∀ (fuel : Nat) (l : List Char) (x : Char),
    x ∈ subParenF fuel l → x ∈ l := by
  intro fuel
  induction fuel with
  | zero =>
    intro l x h
    cases l with
    | nil => cases h
    | cons c rest => exact h
  | succ fuel ih =>
    intro l x h
    cases l with
    | nil => cases h
    | cons c rest =>
      simp only [subParenF] at h
      by_cases hc : (c == '(') = true
      · rw [if_pos hc] at h
        by_cases hm : parenMatchAt rest = true
        · rw [if_pos hm] at h
          have h2 := ih _ _ h
          have h3 : x ∈ rest.dropWhile wordChar := by
            rcases hl : rest.dropWhile wordChar with _ | ⟨d, ds⟩
            · rw [hl] at h2
              cases h2
            · rw [hl] at h2
              exact List.mem_cons_of_mem d h2
          have h4 : x ∈ rest := (List.dropWhile_sublist wordChar).subset h3
          exact List.mem_cons_of_mem c h4
        · rw [if_neg hm] at h
          rcases List.mem_cons.mp h with h1 | h2
          · exact h1 ▸ List.mem_cons_self c rest
          · exact List.mem_cons_of_mem c (ih _ _ h2)
      · rw [if_neg hc] at h
        rcases List.mem_cons.mp h with h1 | h2
        · exact h1 ▸ List.mem_cons_self c rest
        · exact List.mem_cons_of_mem c (ih _ _ h2)

/-- Without uppercase characters the segment loop builds one segment. -/
theorem camelSegs_no_upper : ∀ (l : List Char) (prev : Option Char) (cur : List Char),
    (∀ c ∈ l, c.isUpper = false) → camelSegs prev cur l = [cur ++ l] := by
  intro l
  induction l with
  | nil =>
    intro prev cur h
    simp [camelSegs]
  | cons c rest ih =>
    intro prev cur h
    have hcu : c.isUpper = false := h c (List.mem_cons_self c rest)
    have hb : camelBoundary prev c rest.head? = false := by
      unfold camelBoundary
      rw [hcu]
      simp
    simp only [camelSegs]
    rw [if_neg (by rw [hb]; intro hcon; cases hcon)]
    rw [ih (some c) (cur ++ [c]) (fun d hd => h d (List.mem_cons_of_mem c hd))]
    simp

/-- Segment characters come from the current word or the remaining input. -/
theorem mem_of_mem_camelSegs : ∀ (l : List Char) (prev : Option Char) (cur : List Char)
    (w : List Char) (x : Char), w ∈ camelSegs prev cur l → x ∈ w → x ∈ cur ∨ x ∈ l := by
  intro l
  induction l with
  | nil =>
    intro prev cur w x hw hx
    simp only [camelSegs, List.mem_singleton] at hw
    subst hw
    exact Or.inl hx
  | cons c rest ih =>
    intro prev cur w x hw hx
    simp only [camelSegs] at hw
    split at hw
    · rcases List.mem_cons.mp hw with h1 | h2
      · subst h1
        exact Or.inl hx
      · rcases ih _ _ _ _ h2 hx with h3 | h4
        · rcases List.mem_singleton.mp h3 with rfl
          exact Or.inr (List.mem_cons_self x rest)
        · exact Or.inr (List.mem_cons_of_mem c h4)
    · rcases ih _ _ _ _ hw hx with h3 | h4
      · rcases List.mem_append.mp h3 with h5 | h6
        · exact Or.inl h5
        · rcases List.mem_singleton.mp h6 with rfl
          exact Or.inr (List.mem_cons_self x rest)
      · exact Or.inr (List.mem_cons_of_mem c h4)

/-- Joined characters are the underscore or come from one of the words. -/
theorem mem_of_mem_joinUnderscore : ∀ (L : List (List Char)) (x : Char),
    x ∈ joinUnderscore L → x = '_' ∨ ∃ w ∈ L, x ∈ w := by
  intro L
  induction L with
  | nil =>
    intro x h
    cases h
  | cons w ws ih =>
    intro x h
    cases ws with
    | nil => exact Or.inr ⟨w, List.mem_cons_self w [], h⟩
    | cons w2 ws2 =>
      simp only [joinUnderscore] at h
      rcases List.mem_append.mp h with h1 | h2
      · exact Or.inr ⟨w, List.mem_cons_self w (w2 :: ws2), h1⟩
      · rcases List.mem_cons.mp h2 with h3 | h4
        · exact Or.inl h3
        · rcases ih x h4 with h5 | ⟨w3, hw3, hx3⟩
          · exact Or.inl h5
          · exact Or.inr ⟨w3, List.mem_cons_of_mem w hw3, hx3⟩

/-- Snake-casing a string without uppercase characters only lowercases it. -/
theorem parse_camelcase_no_upper (u : String) (h : ∀ c ∈ u.toList, c.isUpper = false) :
    parse_camelcase u = String.mk (u.toList.map Char.toLower) := by
  unfold parse_camelcase
  rw [camelSegs_no_upper u.toList none [] h]
  simp [joinUnderscore]

/-- Every character of a cleaned name is the underscore or the lowercase of
a character that survived the space/period/hyphen removal and the
parenthesized-group deletion. -/
theorem normalize_chars (u : String) (x : Char)
    (hx : x ∈ (normalize_string u).toList) :
    x = '_' ∨ ∃ d, d ∈ subParen (removeSpDotDash u.toList) ∧ x = Char.toLower d := by
  unfold normalize_string parse_camelcase at hx
  rcases mem_of_mem_joinUnderscore _ _ hx with h1 | ⟨w, hw, hxw⟩
  · exact Or.inl h1
  · rcases List.mem_map.mp hw with ⟨w0, hw0, hw0e⟩
    subst hw0e
    rcases List.mem_map.mp hxw with ⟨d, hd, hde⟩
    subst hde
    have h2 := mem_of_mem_camelSegs _ none [] w0 d hw0 hd
    rcases h2 with h3 | h4
    · cases h3
    · exact Or.inr ⟨d, h4, rfl⟩

/-- Cleaning is the identity on names already in the output convention. -/
theorem normalize_string_clean_id (u : String)
    (h : ∀ c ∈ u.toList, cleanChar c = true) : normalize_string u = u := by
  have hnup : ∀ c ∈ u.toList, c.isUpper = false := fun c hc => (cleanChar_facts (h c hc)).1
  have hrm : removeSpDotDash u.toList = u.toList := by
    apply List.filter_eq_self.mpr
    intro c hc
    rcases cleanChar_facts (h c hc) with ⟨_, h2, h3, h4, _⟩
    simp [h2, h3, h4]
  have hnp : '(' ∉ u.toList := fun hmem => (cleanChar_facts (h '(' hmem)).2.2.2.2 rfl
  unfold normalize_string
  unfold subParen
  rw [hrm, subParenF_no_paren _ _ hnp, string_mk_toList, parse_camelcase_no_upper u hnup]
  have hmap : u.toList.map Char.toLower = u.toList := by
    have h1 : u.toList.map Char.toLower = u.toList.map id := by
      apply List.map_congr_left
      intro c hc
      have := char_toLower_eq_self (hnup c hc)
      simpa using this
    rw [h1, List.map_id]
  rw [hmap, string_mk_toList]

/-- Cleaning a cleaned name again is the identity provided the cleaned form
contains no parenthesized word group. -/
theorem normalize_string_idem_of_no_group (u : String)
    (hp : hasParenGroup (normalize_string u) = false) :
    normalize_string (normalize_string u) = normalize_string u := by
  have hchar := normalize_chars u
  have hrm : removeSpDotDash (normalize_string u).toList = (normalize_string u).toList := by
    apply List.filter_eq_self.mpr
    intro x hx
    rcases hchar x hx with ⟨rfl⟩ | ⟨d, hd, hde⟩
    · decide
    · subst hde
      have hd2 : d ∈ removeSpDotDash u.toList := mem_of_mem_subParenF _ _ _ hd
      have hd3 := (List.mem_filter.mp hd2).2
      simp only [Bool.and_eq_true, Bool.not_eq_eq_eq_not, Bool.not_true, beq_eq_false_iff_ne,
        ne_eq] at hd3
      have hs1 : Char.toLower d ≠ ' ' := char_toLower_ne_low (by decide) hd3.1.1
      have hs2 : Char.toLower d ≠ '.' := char_toLower_ne_low (by decide) hd3.1.2
      have hs3 : Char.toLower d ≠ '-' := char_toLower_ne_low (by decide) hd3.2
      simp [hs1, hs2, hs3]
  have hnup : ∀ x ∈ (normalize_string u).toList, x.isUpper = false := by
    intro x hx
    rcases hchar x hx with ⟨rfl⟩ | ⟨d, _, hde⟩
    · decide
    · subst hde
      exact char_isUpper_toLower d
  have hmap : (normalize_string u).toList.map Char.toLower = (normalize_string u).toList := by
    have h1 : (normalize_string u).toList.map Char.toLower
        = (normalize_string u).toList.map id := by
      apply List.map_congr_left
      intro x hx
      rcases hchar x hx with ⟨rfl⟩ | ⟨d, _, hde⟩
      · decide
      · subst hde
        simpa using char_toLower_idem d
    rw [h1, List.map_id]
  conv_lhs => rw [normalize_string]
  unfold subParen
  rw [hrm, subParenF_no_group _ _ hp, string_mk_toList,
    parse_camelcase_no_upper _ hnup, hmap, string_mk_toList]

/-! ## C9 -/

/-- C9 counterexample: cleaning is not idempotent: deleting the inner
parenthesized group of `(a(b))` exposes a new group `(a)`, which a second
cleaning deletes. -/
theorem c9_counterexample :
    normalize_string "(a(b))" = "(a)" ∧
    normalize_string (normalize_string "(a(b))") = "" ∧
    normalize_string (normalize_string "(a(b))") ≠ normalize_string "(a(b))" :=
  ⟨by decide, by decide, by decide⟩

/-- C9 amended: cleaning is the identity on names already in the target
convention (lower-case letters, digits, underscores), and cleaning the
cleaned result equals cleaning once whenever the cleaned form contains no
parenthesized word group; unconditional idempotence fails only because the
group deletion can expose a new group. -/
theorem c9_cleaning_identity_and_conditional_idempotence :
    (∀ u : String, (∀ c ∈ u.toList, cleanChar c = true) → normalize_string u = u) ∧
    (∀ u : String, hasParenGroup (normalize_string u) = false →
      normalize_string (normalize_string u) = normalize_string u) :=
  ⟨normalize_string_clean_id, normalize_string_idem_of_no_group⟩

/-- C9 witness: the spec example `plot_id` cleans to itself, and cleaning
`FieldName(extra)` twice equals cleaning it once. -/
theorem c9_witness :
    normalize_string "plot_id" = "plot_id" ∧
    normalize_string (normalize_string "FieldName(extra)")
      = normalize_string "FieldName(extra)" :=
  ⟨c9_cleaning_identity_and_conditional_idempotence.1 "plot_id" (by decide),
   c9_cleaning_identity_and_conditional_idempotence.2 "FieldName(extra)" (by decide)⟩

end FFI
